import Mathlib

/-!
# A leveled logger with a file sink and a system-log sink

Shallow embedding of `log.hpp` (classes `Log`, `Filer`, `Syslog`) and of the
driver pattern of `log.cpp`.

Conventions of the embedding

* A `std::string` and the content of a `std::ostringstream` are a `List Char`;
  the character `'\x00'` is the C string terminator.
* An `int` is an `Int`; arithmetic on it is reduced by `wrap32` (two's
  complement, 32 bits) and a `size_t` converted to `int` goes through `toInt`.
  A `size_t` is a `Nat` below `2 ^ 64`.
* The clock is an input: `Filer.Writer` receives the text that
  `std::put_time(&tm, "%F %T")` renders for the current time.
* Effects on the outside world are recorded in the state: `Filer.disk` is the
  sequence of chunks handed to the file stream, each with the path of the file
  it went to, and `Syslog.sent` is the sequence of messages handed to
  `syslog(3)`.
-/

namespace DfcLog

/-! ## Machine integers and strings -/

/-- Reduction of an integer to the 32 bit two's complement range of `int`. -/
def wrap32 (x : Int) : Int := (x + 2 ^ 31) % 2 ^ 32 - 2 ^ 31

/-- Conversion of a `size_t` to `int`, as in `int count = lines.find(..)`. -/
def toInt (n : Nat) : Int := wrap32 (n : Int)

/-- Conversion of an `int` to `size_t` (64 bits), as in `substr(count+1, len)`. -/
def toSizeT (i : Int) : Nat := (i % 2 ^ 64).toNat

/-- The value `std::string::npos`, the largest `size_t`. -/
def npos : Nat := 2 ^ 64 - 1

/-- The call `s.find(c)`: position of the first `c` in `s`, or `npos`. -/
def find (s : List Char) (c : Char) : Nat :=
  if s.indexOf c < s.length then s.indexOf c else npos

/-- The call `s.substr(pos, n)` for `pos <= s.size()`: at most `n` characters
from position `pos` on.  (For `pos > s.size()` the library throws
`std::out_of_range`; `substr_at_loop_in_range` shows that the call sites of
`Syslog::Write` never do that unless `count + 1` overflows.) -/
def substr (s : List Char) (pos n : Nat) : List Char := (s.drop pos).take n

/-- The C string that a reader of `s.c_str()` sees: the characters before the
first NUL. -/
def c_str (s : List Char) : List Char := s.takeWhile (fun c => c != '\x00')

/-- The character `s.c_str()[0]`: the first character, or NUL for an empty
string. -/
def c_str0 (s : List Char) : Char := s.headD '\x00'

/-! ## Severity -/

/-- The type `enum class LogLevel`; `ord` is the underlying `int` value, so
that values outside the four enumerators (reachable by a cast) exist too. -/
structure LogLevel where
  ord : Int
deriving DecidableEq

namespace LogLevel

def TRACE : LogLevel := ⟨0⟩
def INFO : LogLevel := ⟨1⟩
def WARN : LogLevel := ⟨2⟩
def CRITICAL : LogLevel := ⟨3⟩

instance : LE LogLevel := ⟨fun a b => a.ord ≤ b.ord⟩
instance : LT LogLevel := ⟨fun a b => a.ord < b.ord⟩
instance (a b : LogLevel) : Decidable (a ≤ b) := inferInstanceAs (Decidable (a.ord ≤ b.ord))
instance (a b : LogLevel) : Decidable (a < b) := inferInstanceAs (Decidable (a.ord < b.ord))

/-- The text that `operator<<(std::ostream&, const LogLevel&)` inserts. -/
def render (obj : LogLevel) : List Char :=
  if obj = TRACE then "TRACE".toList
  else if obj = INFO then "INFO".toList
  else if obj = WARN then "WARN".toList
  else if obj = CRITICAL then "CRITICAL".toList
  else "UNKNOWN".toList

end LogLevel

/-- Which of the two string streams of `Log` a reference returned by `Writer`
designates: the real buffer `os` or the scratch stream `nope`. -/
inductive Target where
  | os
  | nope
deriving DecidableEq

/-! ## The file stream -/

/-- The chunks handed to file streams so far, oldest first, each with the path
of the file it was appended to. -/
abbrev Disk := List (List Char × List Char)

/-- The text appended to the file `p`. -/
def Disk.text (d : Disk) (p : List Char) : List Char :=
  (d.filter (fun e => decide (e.1 = p))).flatMap (fun e => e.2)

/-- A `std::ofstream`: whether a file is open, whether an error bit is set,
and the path of the file last opened. -/
structure ofstream where
  is_open : Bool
  failbit : Bool
  path : List Char
deriving DecidableEq

namespace ofstream

/-- A default constructed stream. -/
def init : ofstream := ⟨false, false, []⟩

/-- The call `open(filename, std::ios_base::app)`; `granted` says whether the
operating system opens the file.  Opening fails on a stream that is open. -/
def open_app (f : ofstream) (filename : List Char) (granted : Bool) : ofstream :=
  if !f.is_open && granted then ⟨true, false, filename⟩ else { f with failbit := true }

/-- The call `close()`; closing a stream that is not open sets `failbit`. -/
def close (f : ofstream) : ofstream :=
  if f.is_open then { f with is_open := false } else { f with failbit := true }

/-- The insertion `f << text`: nothing happens on a stream in error; an open
stream appends to its file; a closed one fails as soon as a character is to be
written. -/
def insert (f : ofstream) (d : Disk) (text : List Char) : ofstream × Disk :=
  if f.failbit then (f, d)
  else if f.is_open then (f, d ++ [(f.path, text)])
  else if text = [] then (f, d)
  else ({ f with failbit := true }, d)

end ofstream

/-! ## The file sink -/

/-- The class `Filer`: the two string streams inherited from `Log`, its own
members, and the chunks given to the file stream so far (`disk`). -/
structure Filer where
  os : List Char
  nope : List Char
  _level : LogLevel
  _logfile : ofstream
  _loglines : Int
  _bufferlines : Int
  disk : Disk
deriving DecidableEq

namespace Filer

/-- The constructor `Filer(level, filename, bufferlines)`; `granted` says
whether the operating system opens `filename` for appending. -/
def new (level : LogLevel) (filename : List Char) (bufferlines : Int) (granted : Bool) :
    Filer :=
  { os := [], nope := [], _level := level,
    _logfile := ofstream.init.open_app filename granted,
    _loglines := 0, _bufferlines := bufferlines, disk := [] }

def ClassName (_s : Filer) : List Char := "File".toList

def GetLogLevel (s : Filer) : LogLevel := s._level

/-- The method `SetLogLevel`: assigns `_level`, then returns `_level`. -/
def SetLogLevel (s : Filer) (l : LogLevel) : Filer × LogLevel :=
  let s1 := { s with _level := l }
  (s1, s1._level)

/-- The method `Filer::Write`. -/
def Write (s : Filer) : Filer :=
  let s1 := { s with nope := [] }
  let r := s1._logfile.insert s1.disk s1.os
  let s2 := { s1 with _logfile := r.1, disk := r.2 }
  { s2 with os := [] }

/-- The test `_loglines > _bufferlines` of `Filer::Writer`, for the call
`Writer(l)` in state `s`: whether that call runs `Write()`. -/
def Writer_flushes (s : Filer) (l : LogLevel) : Bool :=
  decide (s._level ≤ l) && decide (wrap32 (s._loglines + 1) > s._bufferlines)

/-- The method `Filer::Writer`; `ts` is the rendered local time.  The result
says which stream the returned reference designates. -/
def Writer (s : Filer) (l : LogLevel) (ts : List Char) : Filer × Target :=
  if s._level ≤ l then
    let s1 := { s with os := s.os ++ (ts ++ " ".toList ++ l.render ++ ": ".toList) }
    let s2 := { s1 with _loglines := wrap32 (s1._loglines + 1) }
    if s2._loglines > s2._bufferlines then
      ({ Write s2 with _loglines := 0 }, Target.os)
    else (s2, Target.os)
  else ({ s with nope := [] }, Target.nope)

/-- The insertion `ref << text` into a reference obtained from `Writer`. -/
def put (s : Filer) (t : Target) (text : List Char) : Filer :=
  match t with
  | Target.os => { s with os := s.os ++ text }
  | Target.nope => { s with nope := s.nope ++ text }

/-- The method `SetLogFile`; `granted` says whether the new file opens. -/
def SetLogFile (s : Filer) (filename : List Char) (granted : Bool) : Filer :=
  { s with _logfile := s._logfile.close.open_app filename granted }

/-- The method `CloseLogFile`. -/
def CloseLogFile (s : Filer) : Filer :=
  let s1 := Write s
  { s1 with _logfile := s1._logfile.close }

/-- The destructor `~Filer` (the base destructor `~Log` then runs the empty
`Log::Write`). -/
def destroy (s : Filer) : Filer :=
  let s1 := Write s
  { s1 with _logfile := s1._logfile.close }

/-- One statement of a caller of the sink. -/
inductive Op where
  /-- The statement `log.Writer(l) << body;` at rendered time `ts`. -/
  | write (l : LogLevel) (ts body : List Char)
  /-- An insertion into a reference kept from an earlier `Writer` call. -/
  | put (t : Target) (text : List Char)
  /-- The statement `log.Write();` -/
  | flush
  | setLogLevel (l : LogLevel)
  | setLogFile (filename : List Char) (granted : Bool)
  | closeLogFile
deriving DecidableEq

/-- Effect of one statement. -/
def step (s : Filer) : Op → Filer
  | Op.write l ts body => let r := Writer s l ts; put r.1 r.2 body
  | Op.put t text => put s t text
  | Op.flush => Write s
  | Op.setLogLevel l => (SetLogLevel s l).1
  | Op.setLogFile filename granted => SetLogFile s filename granted
  | Op.closeLogFile => CloseLogFile s

/-- Effect of a sequence of statements, first to last. -/
def run (s : Filer) (ops : List Op) : Filer := ops.foldl step s

/-- Whether a statement is a `Writer` statement or an explicit flush. -/
def Op.isWriteOrFlush : Op → Bool
  | Op.write _ _ _ => true
  | Op.flush => true
  | _ => false

/-- Whether a statement is a `Writer` statement. -/
def Op.isWrite : Op → Bool
  | Op.write _ _ _ => true
  | _ => false

/-- The text appended to the file `p` by the sink so far. -/
def fileText (s : Filer) (p : List Char) : List Char := s.disk.text p

end Filer

/-! ## The system-log sink -/

/-- The constant `syslogname_size`. -/
def syslogname_size : Nat := 12

/-- The array that `strncpy(dst, src, n)` leaves in `dst[0..n)`, for a source
holding the characters `src` followed by a NUL. -/
def strncpy (src : List Char) (n : Nat) : List Char :=
  (c_str src).take n ++ List.replicate (n - ((c_str src).take n).length) '\x00'

/-- The C string read from the start of a character array: `none` when the
array holds no NUL, so that reading runs past its end. -/
def readCStr (buf : List Char) : Option (List Char) :=
  if '\x00' ∈ buf then some (c_str buf) else none

/-- The class `Syslog`: the two string streams inherited from `Log`, its own
members, the messages passed to `syslog(3)` so far (`sent`), the static array
`syslogname`, and the tag seen through the pointer registered by `openlog`
(`ident`; `none` when that pointer designates no terminated string). -/
structure Syslog where
  os : List Char
  nope : List Char
  _level : LogLevel
  _loglines : Int
  _bufferlines : Int
  sent : List (List Char)
  syslogname : List Char
  ident : Option (List Char)
deriving DecidableEq

namespace Syslog

/-- The constructor `Syslog(level, name, bufferlines)`; `name` is a C string.
The static array `syslogname` is zero initialised. -/
def new (level : LogLevel) (name : List Char) (bufferlines : Int) : Syslog :=
  { os := [], nope := [], _level := level, _loglines := 0, _bufferlines := bufferlines,
    sent := [], syslogname := List.replicate syslogname_size '\x00',
    ident := some (c_str name) }

def ClassName (_s : Syslog) : List Char := "Syslog".toList

def GetLogLevel (s : Syslog) : LogLevel := s._level

/-- The method `SetLogLevel`: assigns `_level`, then returns `_level`. -/
def SetLogLevel (s : Syslog) (l : LogLevel) : Syslog × LogLevel :=
  let s1 := { s with _level := l }
  (s1, s1._level)

/-- The method `SetLogName`. -/
def SetLogName (s : Syslog) (logname : List Char) : Syslog :=
  let buf := strncpy logname syslogname_size
  { s with syslogname := buf, ident := readCStr buf }

/-- One pass through the body of the `while` loop of `Syslog::Write`, entered
with the values of `lines`, `count` (assigned by the loop test) and `len`:
the message passed to `syslog` and the new values of `lines`, `count`, `len`. -/
def Write_body (lines : List Char) (count len : Int) :
    List Char × List Char × Int × Int :=
  let line := substr lines 0 (find lines '\n')
  let lines1 := substr lines (toSizeT (wrap32 (count + 1))) (toSizeT len)
  let count1 := toInt (find lines1 '\n')
  let len1 := wrap32 (len - count1)
  (c_str line, lines1, count1, len1)

/-- The `while` loop of `Syslog::Write` run for at most `fuel` tests of its
condition, from the values of `lines` and `len`: the messages passed to
`syslog`, in order, or `none` when the loop has not ended by then. -/
def Write_loop : Nat → List Char → Int → Option (List (List Char))
  | 0, _, _ => none
  | fuel + 1, lines, len =>
    let count := toInt (find lines '\n')
    if count > 0 then
      let r := Write_body lines count len
      (Write_loop fuel r.2.1 r.2.2.2).map (fun recs => r.1 :: recs)
    else some []

/-- The messages that `Syslog::Write` passes to `syslog` for the buffer content
`buf`.  The loop gets `buf.length + 1` tests of its condition, which is more
than it ever uses (`Write_loop_fuel`). -/
def Write_records (buf : List Char) : List (List Char) :=
  if c_str0 buf ≠ '\x00' then
    (Write_loop (buf.length + 1) buf (toInt buf.length)).getD []
  else []

/-- The method `Syslog::Write`. -/
def Write (s : Syslog) : Syslog :=
  { s with os := [], sent := s.sent ++ Write_records s.os }

/-- The test `_loglines > _bufferlines` of `Syslog::Writer`, for the call
`Writer(l)` in state `s`: whether that call runs `Write()`. -/
def Writer_flushes (s : Syslog) (l : LogLevel) : Bool :=
  decide (s._level ≤ l) && decide (wrap32 (s._loglines + 1) > s._bufferlines)

/-- The method `Syslog::Writer`.  The result says which stream the returned
reference designates. -/
def Writer (s : Syslog) (l : LogLevel) : Syslog × Target :=
  if s._level ≤ l then
    let s1 := { s with _loglines := wrap32 (s._loglines + 1) }
    let s2 := if s1._loglines > s1._bufferlines then { Write s1 with _loglines := 0 } else s1
    ({ s2 with os := s2.os ++ (l.render ++ ": ".toList) }, Target.os)
  else ({ s with nope := [] }, Target.nope)

/-- The insertion `ref << text` into a reference obtained from `Writer`. -/
def put (s : Syslog) (t : Target) (text : List Char) : Syslog :=
  match t with
  | Target.os => { s with os := s.os ++ text }
  | Target.nope => { s with nope := s.nope ++ text }

/-- The destructor `~Syslog` (the base destructor `~Log` then runs the empty
`Log::Write`). -/
def destroy (s : Syslog) : Syslog := Write s

/-- One statement of a caller of the sink. -/
inductive Op where
  /-- The statement `log.Writer(l) << body;` -/
  | write (l : LogLevel) (body : List Char)
  /-- An insertion into a reference kept from an earlier `Writer` call. -/
  | put (t : Target) (text : List Char)
  /-- The statement `log.Write();` -/
  | flush
  | setLogLevel (l : LogLevel)
  | setLogName (logname : List Char)
deriving DecidableEq

/-- Effect of one statement. -/
def step (s : Syslog) : Op → Syslog
  | Op.write l body => let r := Writer s l; put r.1 r.2 body
  | Op.put t text => put s t text
  | Op.flush => Write s
  | Op.setLogLevel l => (SetLogLevel s l).1
  | Op.setLogName logname => SetLogName s logname

/-- Effect of a sequence of statements, first to last. -/
def run (s : Syslog) (ops : List Op) : Syslog := ops.foldl step s

/-- Whether a statement is a `Writer` statement or an explicit flush. -/
def Op.isWriteOrFlush : Op → Bool
  | Op.write _ _ => true
  | Op.flush => true
  | _ => false

/-- Whether a statement is a `Writer` statement. -/
def Op.isWrite : Op → Bool
  | Op.write _ _ => true
  | _ => false

end Syslog


/-! ## What the sinks are expected to deliver -/

/-- The line that a `Writer` statement contributes to the file of a sink with
threshold `T`: time, blank, level, colon, blank, body when the level passes,
nothing otherwise; other statements contribute nothing. -/
def Filer.Op.line (T : LogLevel) : Filer.Op → List Char
  | Filer.Op.write l ts body =>
    if T ≤ l then ts ++ " ".toList ++ l.render ++ ": ".toList ++ body else []
  | _ => []

/-- The text that a sequence of statements is expected to append to the file
of a sink with threshold `T`: the lines of its accepted writes, in order. -/
def Filer.expected (T : LogLevel) (ops : List Filer.Op) : List Char :=
  ops.flatMap (Filer.Op.line T)

/-- Two file sinks that agree on everything but the scratch stream `nope`. -/
def Filer.sameButNope (a b : Filer) : Prop :=
  a.os = b.os ∧ a._level = b._level ∧ a._logfile = b._logfile ∧
    a._loglines = b._loglines ∧ a._bufferlines = b._bufferlines ∧ a.disk = b.disk

/-- Two system-log sinks that agree on everything but the scratch stream
`nope`. -/
def Syslog.sameButNope (a b : Syslog) : Prop :=
  a.os = b.os ∧ a._level = b._level ∧ a._loglines = b._loglines ∧
    a._bufferlines = b._bufferlines ∧ a.sent = b.sent ∧ a.syslogname = b.syslogname ∧
    a.ident = b.ident

/-- The buffer content made of the lines `ls`, each followed by a newline, and
of a last piece `t`. -/
def linesBuffer (ls : List (List Char)) (t : List Char) : List Char :=
  ls.flatMap (fun l => l ++ ['\n']) ++ t

/-- Helper of `nonEmptyLines`: `acc` holds, last character first, the
characters of the current line. -/
def nonEmptyLinesAux : List Char → List Char → List (List Char)
  | [], _ => []
  | c :: cs, acc =>
    if c = '\n' then
      (if acc = [] then nonEmptyLinesAux cs [] else acc.reverse :: nonEmptyLinesAux cs [])
    else nonEmptyLinesAux cs (c :: acc)

/-- The non-empty newline-terminated lines of a text, in order: what a flush
of the system-log sink is expected to emit. -/
def nonEmptyLines (buf : List Char) : List (List Char) := nonEmptyLinesAux buf []

/-- The message that a `Writer` statement whose body is a message followed by
one newline contributes to the system log of a sink with threshold `T`: level,
colon, blank, message (the body without its last character) when the level
passes, nothing otherwise; other statements contribute nothing. -/
def Syslog.Op.record (T : LogLevel) : Syslog.Op → List (List Char)
  | Syslog.Op.write l body => if T ≤ l then [l.render ++ ": ".toList ++ body.dropLast] else []
  | _ => []

/-- The messages that a sequence of statements is expected to pass to the
system log on a sink with threshold `T`, in order. -/
def Syslog.expected (T : LogLevel) (ops : List Syslog.Op) : List (List Char) :=
  ops.flatMap (Syslog.Op.record T)

/-- The body of a `Writer` statement is a message free of newlines and of NUL
characters followed by one newline; other statements pass. -/
def Syslog.Op.bodyIsLine : Syslog.Op → Prop
  | Syslog.Op.write _ body => ∃ m : List Char, body = m ++ ['\n'] ∧ '\n' ∉ m ∧ '\x00' ∉ m
  | _ => True

/-- Whether a statement is a `Writer` statement whose level passes the
threshold `T`. -/
def Filer.Op.accepted (T : LogLevel) : Filer.Op → Bool
  | Filer.Op.write l _ _ => decide (T ≤ l)
  | _ => false

/-- The number of accepted writes among the statements `ops`. -/
def Filer.accepted (T : LogLevel) (ops : List Filer.Op) : Nat :=
  ops.countP (Filer.Op.accepted T)

/-- Whether a statement is a `Writer` statement whose level passes the
threshold `T`. -/
def Syslog.Op.accepted (T : LogLevel) : Syslog.Op → Bool
  | Syslog.Op.write l _ => decide (T ≤ l)
  | _ => false

/-- The number of accepted writes among the statements `ops`. -/
def Syslog.accepted (T : LogLevel) (ops : List Syslog.Op) : Nat :=
  ops.countP (Syslog.Op.accepted T)

/-- A sink whose stream is open on `p` without error and whose threshold is `T`. -/
def Filer.OpenOn (T : LogLevel) (p : List Char) (s : Filer) : Prop :=
  s._level = T ∧ s._logfile = ⟨true, false, p⟩

/-- A sink with threshold `T` whose buffer holds the complete lines `pend`. -/
def Syslog.Staged (T : LogLevel) (s : Syslog) (pend : List (List Char)) : Prop :=
  s._level = T ∧ s.os = linesBuffer pend [] ∧
    ∀ l ∈ pend, l ≠ [] ∧ '\n' ∉ l ∧ '\x00' ∉ l

/-- Helper of `leadingLines`: `acc` holds, last character first, the
characters of the current segment. -/
def leadingLinesAux : List Char → List Char → List (List Char)
  | [], _ => []
  | c :: cs, acc =>
    if c = '\n' then (if acc = [] then [] else acc.reverse :: leadingLinesAux cs [])
    else leadingLinesAux cs (c :: acc)

/-- The longest run of leading newline-terminated segments of a text that are
all non-empty: it ends at the first empty segment or with the last newline. -/
def leadingLines (buf : List Char) : List (List Char) := leadingLinesAux buf []

/-- The `while` loop of `Syslog::Write` as in `Syslog.Write_loop`, recording
instead of the messages the value of `lines` after each pass. -/
def Syslog.Write_remaining : Nat → List Char → Int → List (List Char)
  | 0, _, _ => []
  | fuel + 1, lines, len =>
    let count := toInt (find lines '\n')
    if count > 0 then
      let r := Syslog.Write_body lines count len
      r.2.1 :: Syslog.Write_remaining fuel r.2.1 r.2.2.2
    else []

/-- The text `next` is what follows the first newline of `prev`. -/
def afterFirstNewline (prev next : List Char) : Prop :=
  next = prev.drop (find prev '\n' + 1)

/-- The number of newline characters of a text: the number of terminated
lines it holds. -/
def lineCount (buf : List Char) : Nat := buf.count '\n'

/-- The time stamp of a `Writer` statement has no newline and its body is a
message without newline followed by one newline; other statements pass. -/
def Filer.Op.bodyIsLine : Filer.Op → Prop
  | Filer.Op.write _ ts body => '\n' ∉ ts ∧ ∃ m : List Char, body = m ++ ['\n'] ∧ '\n' ∉ m
  | _ => True

/-- The body of a `Writer` statement is a message without newline followed by
one newline; other statements pass. -/
def Syslog.Op.bodyIsTerminated : Syslog.Op → Prop
  | Syslog.Op.write _ body => ∃ m : List Char, body = m ++ ['\n'] ∧ '\n' ∉ m
  | _ => True

/-- A system-log sink with capacity `c` and threshold `T` whose counter lies
between 0 and `c` and whose buffer holds at most one line more than the
counter says. -/
def Syslog.Bounded (T : LogLevel) (c : Int) (s : Syslog) : Prop :=
  s._level = T ∧ s._bufferlines = c ∧ 0 ≤ s._loglines ∧ s._loglines ≤ c ∧
    (lineCount s.os : Int) ≤ s._loglines + 1

/-- A file sink with capacity `c` and threshold `T` whose counter lies between
0 and `c` and whose buffer holds at most one line more than the counter
says. -/
def Filer.Bounded (T : LogLevel) (c : Int) (s : Filer) : Prop :=
  s._level = T ∧ s._bufferlines = c ∧ 0 ≤ s._loglines ∧ s._loglines ≤ c ∧
    (lineCount s.os : Int) ≤ s._loglines + 1

/-- The values of `lines` and `len` at a test of the loop condition of
`Syslog::Write` for which the `len` bookkeeping does not truncate: the text is
shorter than `2 ^ 31` and, when a pass follows, `len` is a non-negative `int`
not smaller than the number of characters after the first newline. -/
def Syslog.LenCovers (lines : List Char) (len : Int) : Prop :=
  lines.length < 2 ^ 31 ∧
    (toInt (find lines '\n') > 0 →
      0 ≤ len ∧ len < 2 ^ 31 ∧ (lines.length : Int) ≤ len + (find lines '\n' : Int) + 1)

/-! ## Basic facts -/

theorem Disk.text_append_single (d : Disk) (p q x : List Char) :
    Disk.text (d ++ [(p, x)]) q = Disk.text d q ++ (if p = q then x else []) := by
  unfold Disk.text
  by_cases h : p = q <;> simp [List.filter_append, List.filter_cons, h]

theorem Filer.file_run_cons (s : Filer) (op : Filer.Op) (ops : List Filer.Op) :
    Filer.run s (op :: ops) = Filer.run (Filer.step s op) ops := rfl

theorem Syslog.sys_run_cons (s : Syslog) (op : Syslog.Op) (ops : List Syslog.Op) :
    Syslog.run s (op :: ops) = Syslog.run (Syslog.step s op) ops := rfl

theorem Filer.run_append (s : Filer) (ops1 ops2 : List Filer.Op) :
    Filer.run s (ops1 ++ ops2) = Filer.run (Filer.run s ops1) ops2 := by
  simp [Filer.run, List.foldl_append]

theorem Filer.Write_openOn {T : LogLevel} {p : List Char} {s : Filer}
    (h : Filer.OpenOn T p s) :
    Filer.OpenOn T p (Filer.Write s) ∧ (Filer.Write s).os = [] ∧
      (Filer.Write s)._loglines = s._loglines ∧
      (Filer.Write s).disk = s.disk ++ [(p, s.os)] := by
  obtain ⟨h1, h2⟩ := h
  simp [Filer.Write, Filer.OpenOn, ofstream.insert, h1, h2]

theorem Filer.step_openOn {T : LogLevel} {p : List Char} {s : Filer}
    (h : Filer.OpenOn T p s) (op : Filer.Op) (hop : op.isWriteOrFlush = true) :
    Filer.OpenOn T p (Filer.step s op) ∧
      ∀ q, (Filer.step s op).disk.text q ++ (if p = q then (Filer.step s op).os else []) =
        s.disk.text q ++ (if p = q then s.os ++ Filer.Op.line T op else []) := by
  obtain ⟨os, nope, lvl, lf, ll, bl, disk⟩ := s
  obtain ⟨hl, hf⟩ := h
  simp only at hl hf
  subst hl hf
  cases op with
  | write l ts body =>
    by_cases hacc : lvl ≤ l <;> by_cases hgt : wrap32 (ll + 1) > bl
    all_goals
      refine ⟨by simp [Filer.OpenOn, Filer.step, Filer.Writer, Filer.Write, Filer.put,
        ofstream.insert, hacc, hgt], fun q => ?_⟩
      by_cases hpq : p = q <;>
        simp [Filer.step, Filer.Writer, Filer.Write, Filer.put, ofstream.insert, hacc, hgt,
          Filer.Op.line, Disk.text_append_single, hpq]
  | flush =>
    refine ⟨by simp [Filer.OpenOn, Filer.step, Filer.Write, ofstream.insert], fun q => ?_⟩
    by_cases hpq : p = q <;>
      simp [Filer.step, Filer.Write, ofstream.insert, Filer.Op.line, Disk.text_append_single, hpq]
  | put t text => simp [Filer.Op.isWriteOrFlush] at hop
  | setLogLevel l => simp [Filer.Op.isWriteOrFlush] at hop
  | setLogFile f g => simp [Filer.Op.isWriteOrFlush] at hop
  | closeLogFile => simp [Filer.Op.isWriteOrFlush] at hop

theorem Filer.run_openOn {T : LogLevel} {p : List Char} (ops : List Filer.Op) :
    ∀ (s : Filer), Filer.OpenOn T p s → (∀ op ∈ ops, op.isWriteOrFlush = true) →
      Filer.OpenOn T p (Filer.run s ops) ∧
      ∀ q, (Filer.run s ops).disk.text q ++ (if p = q then (Filer.run s ops).os else []) =
        s.disk.text q ++ (if p = q then s.os ++ Filer.expected T ops else []) := by
  induction ops with
  | nil =>
    intro s h _
    exact ⟨h, fun q => by simp [Filer.run, Filer.expected]⟩
  | cons op ops ih =>
    intro s h hops
    obtain ⟨h1, h2⟩ := Filer.step_openOn h op (hops op (List.mem_cons_self _ _))
    obtain ⟨h3, h4⟩ := ih (Filer.step s op) h1 (fun o ho => hops o (List.mem_cons_of_mem _ ho))
    refine ⟨by simpa [Filer.file_run_cons] using h3, ?_⟩
    intro q
    rw [Filer.file_run_cons, h4 q]
    have h2q := h2 q
    by_cases hpq : p = q
    · simp only [hpq, if_true] at h2q ⊢
      rw [← List.append_assoc, h2q]
      simp [Filer.expected, List.flatMap_cons]
    · simp only [hpq, if_false, List.append_nil] at h2q ⊢
      exact h2q

/-- C1. File sink end to end: on a sink constructed with any threshold `T`, any
capacity `c` and a file `p` that opens, after any sequence of `Writer`
statements and explicit flushes followed by a final flush, the text appended
to `p` is the concatenation, in submission order, of
time, blank, level, colon, blank, body over exactly the writes whose level is
at least `T`, and no other file receives anything. -/
theorem Filer.file_sink_end_to_end (T : LogLevel) (c : Int) (p : List Char)
    (ops : List Filer.Op) (h : ∀ op ∈ ops, op.isWriteOrFlush = true) :
    (Filer.Write (Filer.run (Filer.new T p c true) ops)).fileText p = Filer.expected T ops ∧
      ∀ q, q ≠ p → (Filer.Write (Filer.run (Filer.new T p c true) ops)).fileText q = [] := by
  have h0 : Filer.OpenOn T p (Filer.new T p c true) := by
    simp [Filer.OpenOn, Filer.new, ofstream.init, ofstream.open_app]
  obtain ⟨h1, h2⟩ := Filer.run_openOn ops _ h0 h
  obtain ⟨_, _, _, w5⟩ := Filer.Write_openOn h1
  constructor
  · have := h2 p
    simp only [if_true] at this
    simp only [Filer.fileText, w5, Disk.text_append_single, if_true, this]
    simp [Filer.new, Disk.text]
  · intro q hq
    have := h2 q
    have hpq : ¬ p = q := fun e => hq e.symm
    simp only [hpq, if_false, List.append_nil] at this
    simp only [Filer.fileText, w5, Disk.text_append_single, hpq, if_false, List.append_nil, this]
    simp [Filer.new, Disk.text]

/-- C1, the scenario of the specification: threshold `WARN`, capacity 5, the
writes `INFO` "hidden", `WARN` "shown", `CRITICAL` "shown2", then a flush. -/
theorem Filer.file_sink_end_to_end_witness :
    (∀ op ∈ [Filer.Op.write LogLevel.INFO "2020-11-09 10:58:34".toList "hidden\n".toList,
              Filer.Op.write LogLevel.WARN "2020-11-09 10:58:35".toList "shown\n".toList,
              Filer.Op.write LogLevel.CRITICAL "2020-11-09 10:58:36".toList "shown2\n".toList],
        op.isWriteOrFlush = true) ∧
    (Filer.Write (Filer.run (Filer.new LogLevel.WARN "logfile.log".toList 5 true)
        [Filer.Op.write LogLevel.INFO "2020-11-09 10:58:34".toList "hidden\n".toList,
         Filer.Op.write LogLevel.WARN "2020-11-09 10:58:35".toList "shown\n".toList,
         Filer.Op.write LogLevel.CRITICAL "2020-11-09 10:58:36".toList "shown2\n".toList])).fileText
        "logfile.log".toList =
      "2020-11-09 10:58:35 WARN: shown\n2020-11-09 10:58:36 CRITICAL: shown2\n".toList := by
  have hops : ∀ op ∈ [Filer.Op.write LogLevel.INFO "2020-11-09 10:58:34".toList "hidden\n".toList,
              Filer.Op.write LogLevel.WARN "2020-11-09 10:58:35".toList "shown\n".toList,
              Filer.Op.write LogLevel.CRITICAL "2020-11-09 10:58:36".toList "shown2\n".toList],
        op.isWriteOrFlush = true := by
    intro op hop
    simp only [List.mem_cons, List.mem_singleton, List.not_mem_nil, or_false] at hop
    rcases hop with rfl | rfl | rfl <;> rfl
  refine ⟨hops, ?_⟩
  rw [(Filer.file_sink_end_to_end LogLevel.WARN 5 "logfile.log".toList _ hops).1]
  decide

/-! ## Filtered writes -/

theorem LogLevel.not_le_of_lt {a b : LogLevel} (h : a < b) : ¬ b ≤ a := by
  intro h2
  have h1 : a.ord < b.ord := h
  have h3 : b.ord ≤ a.ord := h2
  omega

theorem Filer.file_step_sameButNope {a b : Filer} (h : Filer.sameButNope a b) (op : Filer.Op) :
    Filer.sameButNope (Filer.step a op) (Filer.step b op) := by
  obtain ⟨os, n1, lvl, lf, ll, bl, disk⟩ := a
  obtain ⟨os2, n2, lvl2, lf2, ll2, bl2, disk2⟩ := b
  obtain ⟨h1, h2, h3, h4, h5, h6⟩ := h
  simp only at h1 h2 h3 h4 h5 h6
  subst h1 h2 h3 h4 h5 h6
  cases op with
  | write l ts body =>
    by_cases hacc : lvl ≤ l <;> by_cases hgt : wrap32 (ll + 1) > bl <;>
      simp [Filer.sameButNope, Filer.step, Filer.Writer, Filer.Write, Filer.put, hacc, hgt]
  | put t text => cases t <;> simp [Filer.sameButNope, Filer.step, Filer.put]
  | flush => simp [Filer.sameButNope, Filer.step, Filer.Write]
  | setLogLevel l => simp [Filer.sameButNope, Filer.step, Filer.SetLogLevel]
  | setLogFile f g => simp [Filer.sameButNope, Filer.step, Filer.SetLogFile]
  | closeLogFile => simp [Filer.sameButNope, Filer.step, Filer.CloseLogFile, Filer.Write]

theorem Filer.file_run_sameButNope (ops : List Filer.Op) :
    ∀ {a b : Filer}, Filer.sameButNope a b →
      Filer.sameButNope (Filer.run a ops) (Filer.run b ops) := by
  induction ops with
  | nil => intro a b h; exact h
  | cons op ops ih => intro a b h; exact ih (Filer.file_step_sameButNope h op)

theorem Filer.file_destroy_sameButNope {a b : Filer} (h : Filer.sameButNope a b) :
    Filer.sameButNope (Filer.destroy a) (Filer.destroy b) := by
  obtain ⟨os, n1, lvl, lf, ll, bl, disk⟩ := a
  obtain ⟨os2, n2, lvl2, lf2, ll2, bl2, disk2⟩ := b
  obtain ⟨h1, h2, h3, h4, h5, h6⟩ := h
  simp only at h1 h2 h3 h4 h5 h6
  subst h1 h2 h3 h4 h5 h6
  simp [Filer.sameButNope, Filer.destroy, Filer.Write]

theorem Syslog.sys_step_sameButNope {a b : Syslog} (h : Syslog.sameButNope a b) (op : Syslog.Op) :
    Syslog.sameButNope (Syslog.step a op) (Syslog.step b op) := by
  obtain ⟨os, n1, lvl, ll, bl, sent, nm, idt⟩ := a
  obtain ⟨os2, n2, lvl2, ll2, bl2, sent2, nm2, idt2⟩ := b
  obtain ⟨h1, h2, h3, h4, h5, h6, h7⟩ := h
  simp only at h1 h2 h3 h4 h5 h6 h7
  subst h1 h2 h3 h4 h5 h6 h7
  cases op with
  | write l body =>
    by_cases hacc : lvl ≤ l <;> by_cases hgt : wrap32 (ll + 1) > bl <;>
      simp [Syslog.sameButNope, Syslog.step, Syslog.Writer, Syslog.Write, Syslog.put, hacc, hgt]
  | put t text => cases t <;> simp [Syslog.sameButNope, Syslog.step, Syslog.put]
  | flush => simp [Syslog.sameButNope, Syslog.step, Syslog.Write]
  | setLogLevel l => simp [Syslog.sameButNope, Syslog.step, Syslog.SetLogLevel]
  | setLogName n => simp [Syslog.sameButNope, Syslog.step, Syslog.SetLogName]

theorem Syslog.sys_run_sameButNope (ops : List Syslog.Op) :
    ∀ {a b : Syslog}, Syslog.sameButNope a b →
      Syslog.sameButNope (Syslog.run a ops) (Syslog.run b ops) := by
  induction ops with
  | nil => intro a b h; exact h
  | cons op ops ih => intro a b h; exact ih (Syslog.sys_step_sameButNope h op)

theorem Syslog.sys_destroy_sameButNope {a b : Syslog} (h : Syslog.sameButNope a b) :
    Syslog.sameButNope (Syslog.destroy a) (Syslog.destroy b) := by
  obtain ⟨os, n1, lvl, ll, bl, sent, nm, idt⟩ := a
  obtain ⟨os2, n2, lvl2, ll2, bl2, sent2, nm2, idt2⟩ := b
  obtain ⟨h1, h2, h3, h4, h5, h6, h7⟩ := h
  simp only at h1 h2 h3 h4 h5 h6 h7
  subst h1 h2 h3 h4 h5 h6 h7
  simp [Syslog.sameButNope, Syslog.destroy, Syslog.Write]

/-- C2. A filtered write is a no-op.  For a file sink `f` and a system-log sink
`y` in any state and levels strictly below their thresholds, `Writer` returns
the scratch stream, and after inserting any text into the returned reference
that text is in the scratch stream while the buffer, the line counter, the threshold, the capacity and the destination
are what they were; whatever statements follow, and after the destructor, the
sink is in the state it would have reached without the filtered write, except
for the scratch stream, so none of the text reaches the destination. -/
theorem filtered_write_is_noop (f : Filer) (y : Syslog) (lf ly : LogLevel)
    (ts text : List Char) (hf : lf < f._level) (hy : ly < y._level) :
    ((Filer.Writer f lf ts).2 = Target.nope ∧
      (Filer.put (Filer.Writer f lf ts).1 (Filer.Writer f lf ts).2 text).nope = text ∧
      Filer.sameButNope (Filer.put (Filer.Writer f lf ts).1 (Filer.Writer f lf ts).2 text) f ∧
      (∀ ops : List Filer.Op,
        Filer.sameButNope
          (Filer.run (Filer.put (Filer.Writer f lf ts).1 (Filer.Writer f lf ts).2 text) ops)
          (Filer.run f ops) ∧
        (Filer.destroy
          (Filer.run (Filer.put (Filer.Writer f lf ts).1 (Filer.Writer f lf ts).2 text)
            ops)).disk = (Filer.destroy (Filer.run f ops)).disk)) ∧
    ((Syslog.Writer y ly).2 = Target.nope ∧
      (Syslog.put (Syslog.Writer y ly).1 (Syslog.Writer y ly).2 text).nope = text ∧
      Syslog.sameButNope (Syslog.put (Syslog.Writer y ly).1 (Syslog.Writer y ly).2 text) y ∧
      (∀ ops : List Syslog.Op,
        Syslog.sameButNope
          (Syslog.run (Syslog.put (Syslog.Writer y ly).1 (Syslog.Writer y ly).2 text) ops)
          (Syslog.run y ops) ∧
        (Syslog.destroy
          (Syslog.run (Syslog.put (Syslog.Writer y ly).1 (Syslog.Writer y ly).2 text)
            ops)).sent = (Syslog.destroy (Syslog.run y ops)).sent)) := by
  have hf' := LogLevel.not_le_of_lt hf
  have hy' := LogLevel.not_le_of_lt hy
  have e1 : Filer.sameButNope
      (Filer.put (Filer.Writer f lf ts).1 (Filer.Writer f lf ts).2 text) f := by
    simp [Filer.sameButNope, Filer.Writer, Filer.put, hf']
  have e2 : Syslog.sameButNope
      (Syslog.put (Syslog.Writer y ly).1 (Syslog.Writer y ly).2 text) y := by
    simp [Syslog.sameButNope, Syslog.Writer, Syslog.put, hy']
  refine ⟨⟨by simp [Filer.Writer, hf'], by simp [Filer.Writer, Filer.put, hf'], e1,
      fun ops => ⟨Filer.file_run_sameButNope ops e1, ?_⟩⟩,
    ⟨by simp [Syslog.Writer, hy'], by simp [Syslog.Writer, Syslog.put, hy'], e2,
      fun ops => ⟨Syslog.sys_run_sameButNope ops e2, ?_⟩⟩⟩
  · exact (Filer.file_destroy_sameButNope (Filer.file_run_sameButNope ops e1)).2.2.2.2.2
  · exact (Syslog.sys_destroy_sameButNope (Syslog.sys_run_sameButNope ops e2)).2.2.2.2.1

/-- C2, an instance: an `INFO` write on sinks with threshold `WARN` that hold
a staged line. -/
theorem filtered_write_is_noop_witness :
    (Filer.put (Filer.Writer (Filer.run (Filer.new LogLevel.WARN "f".toList 5 true)
        [Filer.Op.write LogLevel.WARN "t".toList "kept\n".toList]) LogLevel.INFO "t".toList).1
        (Filer.Writer (Filer.run (Filer.new LogLevel.WARN "f".toList 5 true)
        [Filer.Op.write LogLevel.WARN "t".toList "kept\n".toList]) LogLevel.INFO "t".toList).2
        "hidden\n".toList).os = "t WARN: kept\n".toList ∧
    (Syslog.put (Syslog.Writer (Syslog.run (Syslog.new LogLevel.WARN "Log".toList 5)
        [Syslog.Op.write LogLevel.WARN "kept\n".toList]) LogLevel.INFO).1
        (Syslog.Writer (Syslog.run (Syslog.new LogLevel.WARN "Log".toList 5)
        [Syslog.Op.write LogLevel.WARN "kept\n".toList]) LogLevel.INFO).2
        "hidden\n".toList).os = "WARN: kept\n".toList := by
  have h := filtered_write_is_noop
    (Filer.run (Filer.new LogLevel.WARN "f".toList 5 true)
      [Filer.Op.write LogLevel.WARN "t".toList "kept\n".toList])
    (Syslog.run (Syslog.new LogLevel.WARN "Log".toList 5)
      [Syslog.Op.write LogLevel.WARN "kept\n".toList])
    LogLevel.INFO LogLevel.INFO "t".toList "hidden\n".toList (by decide) (by decide)
  refine ⟨?_, ?_⟩
  · rw [h.1.2.2.1.1]; decide
  · rw [h.2.2.2.1.1]; decide

/-! ## Machine integers, `find`, and the splitting loop -/

theorem wrap32_of_range {x : Int} (h1 : -2 ^ 31 ≤ x) (h2 : x < 2 ^ 31) : wrap32 x = x := by
  unfold wrap32
  omega

theorem toInt_of_lt {n : Nat} (h : n < 2 ^ 31) : toInt n = (n : Int) := by
  unfold toInt
  apply wrap32_of_range <;> omega

theorem toInt_npos : toInt npos = -1 := by
  decide

theorem toSizeT_of_nonneg {i : Int} (h1 : 0 ≤ i) (h2 : i < 2 ^ 64) : toSizeT i = i.toNat := by
  unfold toSizeT
  rw [Int.emod_eq_of_lt h1 h2]

theorem find_of_not_mem {s : List Char} {c : Char} (h : c ∉ s) : find s c = npos := by
  unfold find
  rw [List.indexOf_eq_length.mpr h]
  simp

theorem find_append_cons {l rest : List Char} {c : Char} (h : c ∉ l) :
    find (l ++ c :: rest) c = l.length := by
  unfold find
  rw [List.indexOf_append_of_not_mem h, List.indexOf_cons_self]
  simp

theorem c_str_of_not_mem {s : List Char} (h : '\x00' ∉ s) : c_str s = s := by
  unfold c_str
  rw [List.takeWhile_eq_self_iff]
  intro x hx
  simp only [bne_iff_ne, ne_eq]
  intro e
  exact h (e ▸ hx)

theorem linesBuffer_nil (t : List Char) : linesBuffer [] t = t := by
  simp [linesBuffer]

theorem linesBuffer_cons (l : List Char) (ls : List (List Char)) (t : List Char) :
    linesBuffer (l :: ls) t = l ++ '\n' :: linesBuffer ls t := by
  simp [linesBuffer]

theorem length_le_linesBuffer (ls : List (List Char)) (t : List Char) :
    ls.length ≤ (linesBuffer ls t).length := by
  induction ls with
  | nil => simp
  | cons l ls ih =>
    rw [linesBuffer_cons]
    simp only [List.length_cons, List.length_append]
    omega

/-- One turn of the loop on a buffer that starts with a non-empty line. -/
theorem Syslog.Write_loop_cons (fuel : Nat) (l rest : List Char) (len : Int)
    (hne : l ≠ []) (hnl : '\n' ∉ l) (hsize : (l ++ '\n' :: rest).length < 2 ^ 31)
    (h0 : 0 ≤ len) (h1 : len < 2 ^ 31) (h2 : (rest.length : Int) ≤ len) :
    Syslog.Write_loop (fuel + 1) (l ++ '\n' :: rest) len =
      (Syslog.Write_loop fuel rest (wrap32 (len - toInt (find rest '\n')))).map
        (fun recs => c_str l :: recs) := by
  have hlen : l.length + 1 < 2 ^ 31 := by
    simp only [List.length_append, List.length_cons] at hsize
    omega
  have hpos : 0 < l.length := List.length_pos.mpr hne
  have hfind : find (l ++ '\n' :: rest) '\n' = l.length := find_append_cons hnl
  have hcount : toInt (find (l ++ '\n' :: rest) '\n') = (l.length : Int) := by
    rw [hfind, toInt_of_lt (by omega)]
  have hline : substr (l ++ '\n' :: rest) 0 l.length = l := by
    simp [substr]
  have hw : wrap32 ((l.length : Int) + 1) = (l.length : Int) + 1 := by
    apply wrap32_of_range <;> omega
  have hpos2 : toSizeT ((l.length : Int) + 1) = l.length + 1 := by
    rw [toSizeT_of_nonneg (by omega) (by omega)]
    omega
  have hn : rest.length ≤ toSizeT len := by
    rw [toSizeT_of_nonneg h0 (by omega)]
    omega
  have hrest : substr (l ++ '\n' :: rest) (l.length + 1) (toSizeT len) = rest := by
    have hd : List.drop (l.length + 1) (l ++ '\n' :: rest) = rest := by
      rw [show l ++ '\n' :: rest = (l ++ ['\n']) ++ rest by simp]
      rw [List.drop_append_of_le_length (by simp)]
      simp
    unfold substr
    rw [hd]
    exact List.take_of_length_le hn
  have hgt : toInt (find (l ++ '\n' :: rest) '\n') > 0 := by
    rw [hcount]
    omega
  rw [Syslog.Write_loop]
  simp only [hgt, if_true, Syslog.Write_body]
  rw [hcount, hw, hpos2, hfind, hline, hrest]

/-- The loop on a buffer without newline stops at once. -/
theorem Syslog.Write_loop_no_newline (fuel : Nat) (t : List Char) (len : Int)
    (h : '\n' ∉ t) : Syslog.Write_loop (fuel + 1) t len = some [] := by
  rw [Syslog.Write_loop]
  simp [find_of_not_mem h, toInt_npos]

/-- The loop on a buffer of non-empty terminated lines and an unterminated
rest emits the lines. -/
theorem Syslog.Write_loop_lines (ls : List (List Char)) :
    ∀ (t : List Char) (fuel : Nat) (len : Int),
      (∀ l ∈ ls, l ≠ [] ∧ '\n' ∉ l) → '\n' ∉ t →
      (linesBuffer ls t).length < 2 ^ 31 → ls.length < fuel →
      (∀ l ls1, ls = l :: ls1 →
        0 ≤ len ∧ len < 2 ^ 31 ∧ ((linesBuffer ls1 t).length : Int) ≤ len) →
      Syslog.Write_loop fuel (linesBuffer ls t) len = some (ls.map c_str) := by
  induction ls with
  | nil =>
    intro t fuel len _ ht _ hfuel _
    obtain ⟨f, rfl⟩ : ∃ f, fuel = f + 1 := ⟨fuel - 1, by simp at hfuel; omega⟩
    rw [linesBuffer_nil, Syslog.Write_loop_no_newline f t len ht]
    rfl
  | cons l ls ih =>
    intro t fuel len hls ht hsize hfuel hlen
    obtain ⟨f, rfl⟩ : ∃ f, fuel = f + 1 := ⟨fuel - 1, by simp at hfuel; omega⟩
    obtain ⟨h0, h1, h2⟩ := hlen l ls rfl
    obtain ⟨hne, hnl⟩ := hls l (List.mem_cons_self _ _)
    rw [linesBuffer_cons] at hsize ⊢
    rw [Syslog.Write_loop_cons f l _ len hne hnl hsize h0 h1 h2]
    have hsize2 : (linesBuffer ls t).length < 2 ^ 31 := by
      simp only [List.length_append, List.length_cons] at hsize
      omega
    rw [ih t f _ (fun x hx => hls x (List.mem_cons_of_mem _ hx)) ht hsize2
      (by simp at hfuel; omega) ?_]
    · rfl
    · intro l2 ls2 e
      subst e
      obtain ⟨hne2, hnl2⟩ := hls l2 (List.mem_cons_of_mem _ (List.mem_cons_self _ _))
      rw [linesBuffer_cons] at h2 hsize2 ⊢
      rw [find_append_cons hnl2]
      simp only [List.length_append, List.length_cons] at h2 hsize2
      rw [toInt_of_lt (by omega)]
      rw [wrap32_of_range (by omega) (by omega)]
      refine ⟨by omega, by omega, by omega⟩

/-- The messages of a flush on a buffer of non-empty, NUL-free terminated
lines followed by an unterminated rest are those lines. -/
theorem Syslog.Write_records_lines (ls : List (List Char)) (t : List Char)
    (hls : ∀ l ∈ ls, l ≠ [] ∧ '\n' ∉ l ∧ '\x00' ∉ l) (ht : '\n' ∉ t)
    (hsize : (linesBuffer ls t).length < 2 ^ 31) :
    Syslog.Write_records (linesBuffer ls t) = ls := by
  have hmap : ls.map c_str = ls := by
    conv_rhs => rw [← List.map_id ls]
    apply List.map_congr_left
    intro l hl
    simpa using c_str_of_not_mem (hls l hl).2.2
  have hloop : Syslog.Write_loop ((linesBuffer ls t).length + 1) (linesBuffer ls t)
      (toInt (linesBuffer ls t).length) = some ls := by
    rw [Syslog.Write_loop_lines ls t _ _ (fun l hl => ⟨(hls l hl).1, (hls l hl).2.1⟩) ht hsize
      (by have := length_le_linesBuffer ls t; omega) ?_, hmap]
    intro l ls1 e
    subst e
    rw [toInt_of_lt hsize]
    rw [linesBuffer_cons]
    simp only [List.length_append, List.length_cons]
    rw [linesBuffer_cons] at hsize
    simp only [List.length_append, List.length_cons] at hsize
    refine ⟨by omega, by omega, by omega⟩
  unfold Syslog.Write_records
  split
  · rw [hloop]; rfl
  · rename_i hc
    cases ls with
    | nil => rfl
    | cons l ls1 =>
      exfalso
      apply hc
      obtain ⟨hne, _, hnul⟩ := hls l (List.mem_cons_self _ _)
      rw [linesBuffer_cons]
      cases l with
      | nil => exact absurd rfl hne
      | cons c cs =>
        simp only [c_str0, List.cons_append, List.headD_cons]
        intro e
        exact hnul (e ▸ List.mem_cons_self _ _)

theorem toInt_le (n : Nat) : toInt n ≤ (n : Int) := by
  unfold toInt wrap32
  omega

theorem find_lt_of_ne_npos {s : List Char} {c : Char} (h : find s c ≠ npos) :
    find s c < s.length := by
  unfold find at h ⊢
  split
  · assumption
  · rename_i h2
    simp [h2] at h

/-- The position given to `substr` inside the loop lies in the string unless
`count + 1` overflows, so the library call does not throw. -/
theorem substr_at_loop_in_range (lines : List Char)
    (h : toInt (find lines '\n') > 0) (hov : toInt (find lines '\n') + 1 < 2 ^ 31) :
    toSizeT (wrap32 (toInt (find lines '\n') + 1)) ≤ lines.length := by
  have hne : find lines '\n' ≠ npos := by
    intro e
    rw [e, toInt_npos] at h
    omega
  have h1 := find_lt_of_ne_npos hne
  have h2 := toInt_le (find lines '\n')
  rw [wrap32_of_range (by omega) hov, toSizeT_of_nonneg (by omega) (by omega)]
  omega

/-- Each turn of the loop shortens `lines`. -/
theorem Syslog.Write_body_shorter (lines : List Char) (len : Int)
    (h : toInt (find lines '\n') > 0) :
    (Syslog.Write_body lines (toInt (find lines '\n')) len).2.1.length < lines.length := by
  have hne : find lines '\n' ≠ npos := by
    intro e
    rw [e, toInt_npos] at h
    omega
  have h1 := find_lt_of_ne_npos hne
  have hpos : 1 ≤ toSizeT (wrap32 (toInt (find lines '\n') + 1)) := by
    have hb : toInt (find lines '\n') < 2 ^ 31 := by
      unfold toInt wrap32
      omega
    unfold toSizeT wrap32
    omega
  simp only [Syslog.Write_body, substr, List.length_take, List.length_drop]
  omega

/-- The loop of `Syslog::Write` ends by its own condition: with more tests
than the buffer has characters it never runs out of them. -/
theorem Syslog.Write_loop_fuel (fuel : Nat) :
    ∀ (lines : List Char) (len : Int), lines.length < fuel →
      (Syslog.Write_loop fuel lines len).isSome = true := by
  induction fuel with
  | zero => intro lines len h; omega
  | succ f ih =>
    intro lines len h
    rw [Syslog.Write_loop]
    by_cases hc : toInt (find lines '\n') > 0
    · simp only [hc, if_true, Option.isSome_map']
      apply ih
      have := Syslog.Write_body_shorter lines len hc
      omega
    · simp [hc]

/-! ## Flushing the system-log sink -/

/-- C3. The flush of the system-log sink stops at the first empty line instead
of skipping it: on a sink with threshold `INFO` and capacity 5, after the
statement `Writer(WARN)` with body "a", newline, newline, "b", newline, the
flush passes the single message "WARN: a" to the system log, whereas the
non-empty terminated lines of the buffer are "WARN: a" and "b"; and a buffer
that starts with a newline yields no message at all. -/
theorem Syslog.Write_stops_at_empty_line :
    (Syslog.run (Syslog.new LogLevel.INFO "Log".toList 5)
        [Syslog.Op.write LogLevel.WARN "a\n\nb\n".toList]).os = "WARN: a\n\nb\n".toList ∧
    (Syslog.Write (Syslog.run (Syslog.new LogLevel.INFO "Log".toList 5)
        [Syslog.Op.write LogLevel.WARN "a\n\nb\n".toList])).sent = ["WARN: a".toList] ∧
    nonEmptyLines "WARN: a\n\nb\n".toList = ["WARN: a".toList, "b".toList] ∧
    Syslog.Write_records "\nb\n".toList = [] ∧
    nonEmptyLines "\nb\n".toList = ["b".toList] := by
  decide

/-- C4 as stated fails: the buffer made of the single terminated line
NUL "A" (non-empty and free of newlines) and of the rest "C" yields no message,
because the test `os.str().c_str()[0] != 0` takes it for an empty buffer; and
the terminated line "a" NUL "b" is emitted as "a" only. -/
theorem Syslog.Write_lines_with_nul :
    (['\x00', 'A'] ≠ [] ∧ '\n' ∉ ['\x00', 'A']) ∧ '\n' ∉ "C".toList ∧
    Syslog.Write_records (linesBuffer [['\x00', 'A']] "C".toList) = [] ∧
    (['a', '\x00', 'b'] ≠ [] ∧ '\n' ∉ ['a', '\x00', 'b']) ∧
    Syslog.Write_records (linesBuffer [['a', '\x00', 'b']] "C".toList) = ["a".toList] := by
  decide

/-- C4, amended. For every buffer made of lines `l1 .. lk`, each non-empty,
free of newlines and of NUL characters and followed by a newline, and of a rest
`t` free of newlines, the whole shorter than `2 ^ 31` characters, the flush of
the system-log sink passes exactly `l1 .. lk`, in order, to the system log,
never `t`, and leaves the buffer empty. -/
theorem Syslog.Write_discards_trailing_line (s : Syslog) (ls : List (List Char))
    (t : List Char) (hbuf : s.os = linesBuffer ls t)
    (hls : ∀ l ∈ ls, l ≠ [] ∧ '\n' ∉ l ∧ '\x00' ∉ l) (ht : '\n' ∉ t)
    (hsize : s.os.length < 2 ^ 31) :
    (Syslog.Write s).sent = s.sent ++ ls ∧ (Syslog.Write s).os = [] := by
  rw [hbuf] at hsize
  simp [Syslog.Write, hbuf, Syslog.Write_records_lines ls t hls ht hsize]

/-- C4, the scenario of the specification: the buffer "A", newline, "B",
newline, "C" yields the messages "A" and "B"; "C" is dropped. -/
theorem Syslog.Write_discards_trailing_line_witness :
    (Syslog.Write (Syslog.put (Syslog.new LogLevel.INFO "Log".toList 5) Target.os
        "A\nB\nC".toList)).sent = ["A".toList, "B".toList] ∧
    (Syslog.Write (Syslog.put (Syslog.new LogLevel.INFO "Log".toList 5) Target.os
        "A\nB\nC".toList)).os = [] := by
  have h := Syslog.Write_discards_trailing_line
    (Syslog.put (Syslog.new LogLevel.INFO "Log".toList 5) Target.os "A\nB\nC".toList)
    ["A".toList, "B".toList] "C".toList (by decide) (by decide) (by decide) (by decide)
  exact ⟨by rw [h.1]; decide, h.2⟩

theorem Syslog.Write_records_of_long_line (l : List Char) (hnl : '\n' ∉ l)
    (hlen : l.length = 2 ^ 31) : Syslog.Write_records (l ++ ['\n']) = [] := by
  have hfind : find (l ++ ['\n']) '\n' = 2 ^ 31 := by
    rw [find_append_cons hnl, hlen]
  have hneg : ¬ toInt (2 ^ 31) > 0 := by decide
  unfold Syslog.Write_records
  split
  · rw [Syslog.Write_loop]
    simp only [hfind, hneg, if_false]
    rfl
  · rfl

/-- The length bound of the amended claims is needed: a buffer made of one
line of `2 ^ 31` characters and its newline yields no message, because the
position of the newline, read as an `int`, is negative. -/
theorem Syslog.Write_records_long_line :
    Syslog.Write_records (List.replicate (2 ^ 31) 'a' ++ ['\n']) = [] :=
  Syslog.Write_records_of_long_line _
    (fun h => absurd (List.eq_of_mem_replicate h) (by decide))
    (List.length_replicate _ _)

/-! ## The system-log sink end to end -/

theorem LogLevel.render_cases (l : LogLevel) :
    l.render = "TRACE".toList ∨ l.render = "INFO".toList ∨ l.render = "WARN".toList ∨
      l.render = "CRITICAL".toList ∨ l.render = "UNKNOWN".toList := by
  unfold LogLevel.render
  split_ifs <;> simp

theorem LogLevel.render_clean (l : LogLevel) :
    l.render ≠ [] ∧ '\n' ∉ l.render ∧ '\x00' ∉ l.render := by
  rcases LogLevel.render_cases l with h | h | h | h | h <;> rw [h] <;> decide

theorem linesBuffer_snoc (ls : List (List Char)) (l : List Char) :
    linesBuffer (ls ++ [l]) [] = linesBuffer ls [] ++ (l ++ ['\n']) := by
  simp [linesBuffer]

theorem Syslog.Write_staged (T : LogLevel) (s : Syslog) (pend : List (List Char))
    (h : Syslog.Staged T s pend) (hsize : s.os.length < 2 ^ 31) :
    Syslog.Staged T (Syslog.Write s) [] ∧ (Syslog.Write s).sent = s.sent ++ pend ∧
      (Syslog.Write s)._loglines = s._loglines ∧
      (Syslog.Write s)._bufferlines = s._bufferlines := by
  obtain ⟨h1, h2, h3⟩ := h
  rw [h2] at hsize
  have hr := Syslog.Write_records_lines pend [] h3 (by simp) hsize
  refine ⟨⟨by simpa [Syslog.Write] using h1, by simp [Syslog.Write, linesBuffer], by simp⟩,
    by simp [Syslog.Write, h2, hr], rfl, rfl⟩

theorem Syslog.step_staged {T : LogLevel} {s : Syslog} {pend : List (List Char)}
    (h : Syslog.Staged T s pend) (op : Syslog.Op) (hop : op.isWriteOrFlush = true)
    (hbody : op.bodyIsLine) (hsize : s.os.length < 2 ^ 31) :
    ∃ pend1, Syslog.Staged T (Syslog.step s op) pend1 ∧
      (Syslog.step s op).sent ++ pend1 = s.sent ++ pend ++ Syslog.Op.record T op := by
  cases op with
  | write l body =>
    obtain ⟨m, rfl, hm1, hm2⟩ := hbody
    obtain ⟨r1, r2, r3⟩ := LogLevel.render_clean l
    have hline : (l.render ++ ": ".toList ++ m) ≠ [] ∧ '\n' ∉ (l.render ++ ": ".toList ++ m) ∧
        '\x00' ∉ (l.render ++ ": ".toList ++ m) := by
      refine ⟨by simp [r1], ?_, ?_⟩
      · simp only [List.mem_append, not_or]
        exact ⟨⟨r2, by decide⟩, hm1⟩
      · simp only [List.mem_append, not_or]
        exact ⟨⟨r3, by decide⟩, hm2⟩
    by_cases hacc : T ≤ l
    · have hacc' : s._level ≤ l := by rw [h.1]; exact hacc
      by_cases hgt : wrap32 (s._loglines + 1) > s._bufferlines
      · obtain ⟨⟨w1, w2, _⟩, w4, _, _⟩ := Syslog.Write_staged T
          { s with _loglines := wrap32 (s._loglines + 1) } pend ⟨h.1, h.2.1, h.2.2⟩ hsize
        refine ⟨[l.render ++ ": ".toList ++ m], ⟨?_, ?_, ?_⟩, ?_⟩
        · simpa [Syslog.step, Syslog.Writer, Syslog.put, hacc', hgt] using w1
        · simp only [Syslog.step, Syslog.Writer, Syslog.put, hacc', hgt, if_true, w2]
          simp [linesBuffer]
        · intro x hx
          rw [List.mem_singleton] at hx
          rw [hx]
          exact hline
        · simp only [Syslog.step, Syslog.Writer, Syslog.put, hacc', hgt, if_true, w4,
            Syslog.Op.record, hacc]
          simp
      · refine ⟨pend ++ [l.render ++ ": ".toList ++ m], ⟨?_, ?_, ?_⟩, ?_⟩
        · simpa [Syslog.step, Syslog.Writer, Syslog.put, hacc', hgt] using h.1
        · simp only [Syslog.step, Syslog.Writer, Syslog.put, hacc', hgt, if_true, if_false,
            linesBuffer_snoc, h.2.1]
          simp
        · intro x hx
          rw [List.mem_append, List.mem_singleton] at hx
          rcases hx with hx | hx
          · exact h.2.2 x hx
          · rw [hx]; exact hline
        · simp [Syslog.step, Syslog.Writer, Syslog.put, hacc', hgt, Syslog.Op.record, hacc]
    · have hacc' : ¬ s._level ≤ l := by rw [h.1]; exact hacc
      refine ⟨pend, ⟨?_, ?_, h.2.2⟩, ?_⟩
      · simpa [Syslog.step, Syslog.Writer, Syslog.put, hacc'] using h.1
      · simpa [Syslog.step, Syslog.Writer, Syslog.put, hacc'] using h.2.1
      · simp [Syslog.step, Syslog.Writer, Syslog.put, hacc', Syslog.Op.record, hacc]
  | flush =>
    obtain ⟨w1, w4, _, _⟩ := Syslog.Write_staged T s pend h hsize
    refine ⟨[], by simpa [Syslog.step] using w1, ?_⟩
    simp [Syslog.step, w4, Syslog.Op.record]
  | put t text => simp [Syslog.Op.isWriteOrFlush] at hop
  | setLogLevel l => simp [Syslog.Op.isWriteOrFlush] at hop
  | setLogName n => simp [Syslog.Op.isWriteOrFlush] at hop

theorem Syslog.run_staged {T : LogLevel} (ops : List Syslog.Op) :
    ∀ (s : Syslog) (pend : List (List Char)), Syslog.Staged T s pend →
      (∀ op ∈ ops, op.isWriteOrFlush = true) → (∀ op ∈ ops, op.bodyIsLine) →
      (∀ k, (Syslog.run s (ops.take k)).os.length < 2 ^ 31) →
      (Syslog.Write (Syslog.run s ops)).sent = s.sent ++ pend ++ Syslog.expected T ops := by
  induction ops with
  | nil =>
    intro s pend h _ _ hsize
    obtain ⟨_, w4, _, _⟩ := Syslog.Write_staged T s pend h (by simpa [Syslog.run] using hsize 0)
    simp [Syslog.run, w4, Syslog.expected]
  | cons op ops ih =>
    intro s pend h hops hbody hsize
    obtain ⟨pend1, h1, h2⟩ := Syslog.step_staged h op (hops op (List.mem_cons_self _ _))
      (hbody op (List.mem_cons_self _ _)) (by simpa [Syslog.run] using hsize 0)
    rw [Syslog.sys_run_cons, ih (Syslog.step s op) pend1 h1
      (fun o ho => hops o (List.mem_cons_of_mem _ ho))
      (fun o ho => hbody o (List.mem_cons_of_mem _ ho))
      (fun k => by simpa [Syslog.sys_run_cons] using hsize (k + 1)), h2]
    simp [Syslog.expected, List.flatMap_cons]

/-- C5 as stated fails: a message may hold a NUL character.  On a sink with
threshold `INFO` and capacity 5, the statement `Writer(WARN)` with the body
"a" NUL "b" newline (a newline-free message and one newline) followed by a
flush passes the message "WARN: a" to the system log, not "WARN: a" NUL "b". -/
theorem Syslog.end_to_end_with_nul :
    '\n' ∉ ['a', '\x00', 'b'] ∧
    (Syslog.Write (Syslog.run (Syslog.new LogLevel.INFO "Log".toList 5)
        [Syslog.Op.write LogLevel.WARN (['a', '\x00', 'b'] ++ ['\n'])])).sent
      = ["WARN: a".toList] ∧
    Syslog.expected LogLevel.INFO [Syslog.Op.write LogLevel.WARN (['a', '\x00', 'b'] ++ ['\n'])]
      = ["WARN: ".toList ++ ['a', '\x00', 'b']] := by
  decide

/-- C5, amended. System-log sink end to end: on a freshly constructed sink
with any threshold `T` and any capacity `c`, after any sequence of `Writer`
statements, each with a body made of a message free of newlines and of NUL
characters followed by one newline, and of explicit flushes, during which the
buffer stays shorter than `2 ^ 31` characters, followed by a final flush, the
messages passed to the system log are exactly level, colon, blank, message for
the writes whose level is at least `T`, in submission order, without a time
stamp. -/
theorem Syslog.syslog_sink_end_to_end (T : LogLevel) (name : List Char) (c : Int)
    (ops : List Syslog.Op) (hops : ∀ op ∈ ops, op.isWriteOrFlush = true)
    (hbody : ∀ op ∈ ops, op.bodyIsLine)
    (hsize : ∀ k, (Syslog.run (Syslog.new T name c) (ops.take k)).os.length < 2 ^ 31) :
    (Syslog.Write (Syslog.run (Syslog.new T name c) ops)).sent = Syslog.expected T ops := by
  have h0 : Syslog.Staged T (Syslog.new T name c) [] := by
    simp [Syslog.Staged, Syslog.new, linesBuffer]
  have := Syslog.run_staged ops (Syslog.new T name c) [] h0 hops hbody hsize
  simpa [Syslog.new] using this

/-- C5, the scenario of the driver: threshold `WARN`, default capacity, an
`INFO` write, a `WARN` write, a flush and a `CRITICAL` write, then the final
flush. -/
theorem Syslog.syslog_sink_end_to_end_witness :
    (Syslog.Write (Syslog.run (Syslog.new LogLevel.WARN "Log".toList 5)
        [Syslog.Op.write LogLevel.INFO "This is info\n".toList,
         Syslog.Op.write LogLevel.WARN "Variable x=42\n".toList,
         Syslog.Op.flush,
         Syslog.Op.write LogLevel.CRITICAL "Wrapping up\n".toList])).sent =
      ["WARN: Variable x=42".toList, "CRITICAL: Wrapping up".toList] := by
  rw [Syslog.syslog_sink_end_to_end LogLevel.WARN "Log".toList 5 _ ?_ ?_ ?_]
  · decide
  · intro op hop
    simp only [List.mem_cons, List.mem_singleton, List.not_mem_nil, or_false] at hop
    rcases hop with rfl | rfl | rfl | rfl <;> rfl
  · intro op hop
    simp only [List.mem_cons, List.mem_singleton, List.not_mem_nil, or_false] at hop
    rcases hop with rfl | rfl | rfl | rfl
    · exact ⟨"This is info".toList, by decide, by decide, by decide⟩
    · exact ⟨"Variable x=42".toList, by decide, by decide, by decide⟩
    · trivial
    · exact ⟨"Wrapping up".toList, by decide, by decide, by decide⟩
  · intro k
    rcases k with _ | _ | _ | _ | k
    · decide
    · decide
    · decide
    · decide
    · simp only [List.take_succ_cons, List.take_nil]
      decide

/-! ## The line counter -/

theorem wrap32_succ {k c : Int} (h0 : 0 ≤ k) (h1 : k ≤ c) (hc : c < 2 ^ 31 - 1) :
    wrap32 (k + 1) = k + 1 := by
  apply wrap32_of_range <;> omega

theorem counter_next {k c : Int} (h0 : 0 ≤ k) (h1 : k ≤ c) :
    (if k + 1 > c then 0 else k + 1) = (k + 1) % (c + 1) := by
  split
  · have : k + 1 = c + 1 := by omega
    rw [this, Int.emod_self]
  · rw [Int.emod_eq_of_lt (by omega) (by omega)]

theorem emod_eq_pred_iff {j m : Int} (hm : 0 < m) : j % m = m - 1 ↔ m ∣ j + 1 := by
  constructor
  · intro h
    refine ⟨j / m + 1, ?_⟩
    have := Int.emod_add_ediv j m
    rw [h] at this
    rw [mul_add, mul_one]
    omega
  · rintro ⟨q, hq⟩
    have hj : j = (m - 1) + (q - 1) * m := by
      rw [sub_mul, one_mul, mul_comm q m]
      omega
    rw [hj, Int.add_mul_emod_self, Int.emod_eq_of_lt (by omega) (by omega)]

theorem Filer.file_step_counter {T : LogLevel} {c : Int} (hc1 : c < 2 ^ 31 - 1) {s : Filer}
    (hl : s._level = T) (hb : s._bufferlines = c) (h0 : 0 ≤ s._loglines)
    (h1 : s._loglines ≤ c) (op : Filer.Op) (hop : op.isWrite = true) :
    (Filer.step s op)._level = T ∧ (Filer.step s op)._bufferlines = c ∧
      (Filer.step s op)._loglines =
        (if Filer.Op.accepted T op then (s._loglines + 1) % (c + 1) else s._loglines) ∧
      (s._loglines + (if Filer.Op.accepted T op then 1 else 0) ≤ c →
        (Filer.step s op).disk = s.disk) := by
  obtain ⟨os, nope, lvl, lf, ll, bl, disk⟩ := s
  simp only at hl hb h0 h1
  subst hl hb
  cases op with
  | write l ts body =>
    have hw := wrap32_succ h0 h1 hc1
    have hn := counter_next h0 h1
    by_cases hacc : lvl ≤ l
    · by_cases hgt : ll + 1 > bl
      · simp only [hgt, if_true] at hn
        refine ⟨?_, ?_, ?_, ?_⟩ <;>
          simp [Filer.step, Filer.Writer, Filer.Write, Filer.put, Filer.Op.accepted, hacc, hw,
            hgt, ← hn]
      · simp only [hgt, if_false] at hn
        refine ⟨?_, ?_, ?_, ?_⟩ <;>
          simp [Filer.step, Filer.Writer, Filer.Write, Filer.put, Filer.Op.accepted, hacc, hw,
            hgt, ← hn]
    · refine ⟨?_, ?_, ?_, ?_⟩ <;>
        simp [Filer.step, Filer.Writer, Filer.put, Filer.Op.accepted, hacc]
  | put t text => simp [Filer.Op.isWrite] at hop
  | flush => simp [Filer.Op.isWrite] at hop
  | setLogLevel l => simp [Filer.Op.isWrite] at hop
  | setLogFile f g => simp [Filer.Op.isWrite] at hop
  | closeLogFile => simp [Filer.Op.isWrite] at hop

theorem Filer.file_accepted_cons (T : LogLevel) (op : Filer.Op) (ops : List Filer.Op) :
    ((Filer.accepted T (op :: ops) : Nat) : Int) =
      (if Filer.Op.accepted T op then 1 else 0) + (Filer.accepted T ops : Int) := by
  unfold Filer.accepted
  rw [List.countP_cons]
  split <;> simp
  omega

theorem Filer.file_run_counter (T : LogLevel) {c : Int} (hc0 : 0 ≤ c) (hc1 : c < 2 ^ 31 - 1)
    (ops : List Filer.Op) :
    ∀ (s : Filer), s._level = T → s._bufferlines = c → 0 ≤ s._loglines → s._loglines ≤ c →
      (∀ op ∈ ops, op.isWrite = true) →
      (Filer.run s ops)._level = T ∧ (Filer.run s ops)._bufferlines = c ∧
        (Filer.run s ops)._loglines = (s._loglines + (Filer.accepted T ops : Int)) % (c + 1) ∧
        (s._loglines + (Filer.accepted T ops : Int) ≤ c → (Filer.run s ops).disk = s.disk) := by
  induction ops with
  | nil =>
    intro s hl hb h0 h1 _
    refine ⟨hl, hb, ?_, fun _ => rfl⟩
    simp only [Filer.run, List.foldl_nil, Filer.accepted, List.countP_nil, Nat.cast_zero,
      add_zero]
    rw [Int.emod_eq_of_lt h0 (by omega)]
  | cons op ops ih =>
    intro s hl hb h0 h1 hops
    obtain ⟨a1, a2, a3, a4⟩ := Filer.file_step_counter hc1 hl hb h0 h1 op
      (hops op (List.mem_cons_self _ _))
    have hk0 : 0 ≤ (Filer.step s op)._loglines := by
      rw [a3]; split
      · exact Int.emod_nonneg _ (by omega)
      · exact h0
    have hk1 : (Filer.step s op)._loglines ≤ c := by
      rw [a3]; split
      · have := Int.emod_lt_of_pos (s._loglines + 1) (show (0 : Int) < c + 1 by omega)
        omega
      · exact h1
    obtain ⟨b1, b2, b3, b4⟩ := ih (Filer.step s op) a1 a2 hk0 hk1
      (fun o ho => hops o (List.mem_cons_of_mem _ ho))
    rw [Filer.file_run_cons, Filer.file_accepted_cons]
    refine ⟨b1, b2, ?_, ?_⟩
    · rw [b3, a3]
      split
      · rw [Int.emod_add_emod]
        congr 1
        omega
      · congr 1
        omega
    · intro hle
      have hnn : (0 : Int) ≤ (Filer.accepted T ops : Int) := Int.natCast_nonneg _
      rw [b4, a4]
      · split at hle <;> split <;> simp_all
        omega
      · rw [a3]
        split
        · rename_i hacc
          simp only [hacc, if_true] at hle
          rw [Int.emod_eq_of_lt (by omega) (by omega)]
          omega
        · rename_i hacc
          simp only [hacc] at hle
          simpa using hle

theorem Syslog.sys_step_counter {T : LogLevel} {c : Int} (hc1 : c < 2 ^ 31 - 1) {s : Syslog}
    (hl : s._level = T) (hb : s._bufferlines = c) (h0 : 0 ≤ s._loglines)
    (h1 : s._loglines ≤ c) (op : Syslog.Op) (hop : op.isWrite = true) :
    (Syslog.step s op)._level = T ∧ (Syslog.step s op)._bufferlines = c ∧
      (Syslog.step s op)._loglines =
        (if Syslog.Op.accepted T op then (s._loglines + 1) % (c + 1) else s._loglines) ∧
      (s._loglines + (if Syslog.Op.accepted T op then 1 else 0) ≤ c →
        (Syslog.step s op).sent = s.sent) := by
  obtain ⟨os, nope, lvl, ll, bl, sent, nm, idt⟩ := s
  simp only at hl hb h0 h1
  subst hl hb
  cases op with
  | write l body =>
    have hw := wrap32_succ h0 h1 hc1
    have hn := counter_next h0 h1
    by_cases hacc : lvl ≤ l
    · by_cases hgt : ll + 1 > bl
      · simp only [hgt, if_true] at hn
        refine ⟨?_, ?_, ?_, ?_⟩ <;>
          simp [Syslog.step, Syslog.Writer, Syslog.Write, Syslog.put, Syslog.Op.accepted, hacc,
            hw, hgt, ← hn]
      · simp only [hgt, if_false] at hn
        refine ⟨?_, ?_, ?_, ?_⟩ <;>
          simp [Syslog.step, Syslog.Writer, Syslog.Write, Syslog.put, Syslog.Op.accepted, hacc,
            hw, hgt, ← hn]
    · refine ⟨?_, ?_, ?_, ?_⟩ <;>
        simp [Syslog.step, Syslog.Writer, Syslog.put, Syslog.Op.accepted, hacc]
  | put t text => simp [Syslog.Op.isWrite] at hop
  | flush => simp [Syslog.Op.isWrite] at hop
  | setLogLevel l => simp [Syslog.Op.isWrite] at hop
  | setLogName n => simp [Syslog.Op.isWrite] at hop

theorem Syslog.sys_accepted_cons (T : LogLevel) (op : Syslog.Op) (ops : List Syslog.Op) :
    ((Syslog.accepted T (op :: ops) : Nat) : Int) =
      (if Syslog.Op.accepted T op then 1 else 0) + (Syslog.accepted T ops : Int) := by
  unfold Syslog.accepted
  rw [List.countP_cons]
  split <;> simp
  omega

theorem Syslog.sys_run_counter (T : LogLevel) {c : Int} (hc0 : 0 ≤ c) (hc1 : c < 2 ^ 31 - 1)
    (ops : List Syslog.Op) :
    ∀ (s : Syslog), s._level = T → s._bufferlines = c → 0 ≤ s._loglines → s._loglines ≤ c →
      (∀ op ∈ ops, op.isWrite = true) →
      (Syslog.run s ops)._level = T ∧ (Syslog.run s ops)._bufferlines = c ∧
        (Syslog.run s ops)._loglines =
          (s._loglines + (Syslog.accepted T ops : Int)) % (c + 1) ∧
        (s._loglines + (Syslog.accepted T ops : Int) ≤ c →
          (Syslog.run s ops).sent = s.sent) := by
  induction ops with
  | nil =>
    intro s hl hb h0 h1 _
    refine ⟨hl, hb, ?_, fun _ => rfl⟩
    simp only [Syslog.run, List.foldl_nil, Syslog.accepted, List.countP_nil, Nat.cast_zero,
      add_zero]
    rw [Int.emod_eq_of_lt h0 (by omega)]
  | cons op ops ih =>
    intro s hl hb h0 h1 hops
    obtain ⟨a1, a2, a3, a4⟩ := Syslog.sys_step_counter hc1 hl hb h0 h1 op
      (hops op (List.mem_cons_self _ _))
    have hk0 : 0 ≤ (Syslog.step s op)._loglines := by
      rw [a3]; split
      · exact Int.emod_nonneg _ (by omega)
      · exact h0
    have hk1 : (Syslog.step s op)._loglines ≤ c := by
      rw [a3]; split
      · have := Int.emod_lt_of_pos (s._loglines + 1) (show (0 : Int) < c + 1 by omega)
        omega
      · exact h1
    obtain ⟨b1, b2, b3, b4⟩ := ih (Syslog.step s op) a1 a2 hk0 hk1
      (fun o ho => hops o (List.mem_cons_of_mem _ ho))
    rw [Syslog.sys_run_cons, Syslog.sys_accepted_cons]
    refine ⟨b1, b2, ?_, ?_⟩
    · rw [b3, a3]
      split
      · rw [Int.emod_add_emod]
        congr 1
        omega
      · congr 1
        omega
    · intro hle
      have hnn : (0 : Int) ≤ (Syslog.accepted T ops : Int) := Int.natCast_nonneg _
      rw [b4, a4]
      · split at hle <;> split <;> simp_all
        omega
      · rw [a3]
        split
        · rename_i hacc
          simp only [hacc, if_true] at hle
          rw [Int.emod_eq_of_lt (by omega) (by omega)]
          omega
        · rename_i hacc
          simp only [hacc] at hle
          simpa using hle

/-- Whether the counter test of `Writer` fires, for a counter kept within the
capacity. -/
theorem counter_test_iff {c : Int} (hc0 : 0 ≤ c) (hc1 : c < 2 ^ 31 - 1) (j : Int) :
    wrap32 (j % (c + 1) + 1) > c ↔ (c + 1) ∣ j + 1 := by
  have hm : (0 : Int) < c + 1 := by omega
  have k0 := Int.emod_nonneg j (show c + 1 ≠ 0 by omega)
  have k1 := Int.emod_lt_of_pos j hm
  rw [wrap32_succ k0 (by omega) hc1, ← emod_eq_pred_iff hm]
  constructor <;> intro h <;> omega

theorem Filer.Op.isWriteOrFlush_of_isWrite {op : Filer.Op} (h : op.isWrite = true) :
    op.isWriteOrFlush = true := by
  cases op <;> simp_all [Filer.Op.isWrite, Filer.Op.isWriteOrFlush]

theorem Filer.file_step_chunks {T : LogLevel} {c : Int} {p : List Char}
    (hc1 : c < 2 ^ 31 - 1) {s : Filer} (hopen : Filer.OpenOn T p s) (hb : s._bufferlines = c)
    (h0 : 0 ≤ s._loglines) (h1 : s._loglines ≤ c) (op : Filer.Op) (hop : op.isWrite = true) :
    ((Filer.step s op).disk.length : Int) * (c + 1) + (Filer.step s op)._loglines =
      (s.disk.length : Int) * (c + 1) + s._loglines +
        (if Filer.Op.accepted T op then 1 else 0) := by
  obtain ⟨os, nope, lvl, lf, ll, bl, disk⟩ := s
  obtain ⟨hl, hf⟩ := hopen
  simp only at hl hf hb h0 h1
  subst hl hf hb
  cases op with
  | write l ts body =>
    have hw := wrap32_succ h0 h1 hc1
    by_cases hacc : lvl ≤ l
    · by_cases hgt : ll + 1 > bl
      · have e : ll = bl := by omega
        subst e
        simp [Filer.step, Filer.Writer, Filer.Write, Filer.put, Filer.Op.accepted,
          ofstream.insert, hacc, hw, hgt]
        ring
      · simp [Filer.step, Filer.Writer, Filer.put, Filer.Op.accepted, hacc, hw, hgt]
        ring
    · simp [Filer.step, Filer.Writer, Filer.put, Filer.Op.accepted, hacc]
  | put t text => simp [Filer.Op.isWrite] at hop
  | flush => simp [Filer.Op.isWrite] at hop
  | setLogLevel l => simp [Filer.Op.isWrite] at hop
  | setLogFile f g => simp [Filer.Op.isWrite] at hop
  | closeLogFile => simp [Filer.Op.isWrite] at hop

/-- The chunks handed to the file count the automatic flushes: their number
times `c + 1`, plus the counter, is the number of accepted writes. -/
theorem Filer.file_run_chunks (T : LogLevel) {c : Int} (hc0 : 0 ≤ c) (hc1 : c < 2 ^ 31 - 1)
    (p : List Char) (ops : List Filer.Op) :
    ∀ (s : Filer), Filer.OpenOn T p s → s._bufferlines = c → 0 ≤ s._loglines →
      s._loglines ≤ c → (∀ op ∈ ops, op.isWrite = true) →
      ((Filer.run s ops).disk.length : Int) * (c + 1) + (Filer.run s ops)._loglines =
        (s.disk.length : Int) * (c + 1) + s._loglines + (Filer.accepted T ops : Int) := by
  induction ops with
  | nil =>
    intro s _ _ _ _ _
    simp [Filer.run, Filer.accepted]
  | cons op ops ih =>
    intro s hopen hb h0 h1 hops
    have hop := hops op (List.mem_cons_self _ _)
    obtain ⟨_, a2, a3, _⟩ := Filer.file_step_counter hc1 hopen.1 hb h0 h1 op hop
    have hchunk := Filer.file_step_chunks hc1 hopen hb h0 h1 op hop
    have hopen1 := (Filer.step_openOn hopen op (Filer.Op.isWriteOrFlush_of_isWrite hop)).1
    have hk0 : 0 ≤ (Filer.step s op)._loglines := by
      rw [a3]; split
      · exact Int.emod_nonneg _ (by omega)
      · exact h0
    have hk1 : (Filer.step s op)._loglines ≤ c := by
      rw [a3]; split
      · have := Int.emod_lt_of_pos (s._loglines + 1) (show (0 : Int) < c + 1 by omega)
        omega
      · exact h1
    have := ih (Filer.step s op) hopen1 a2 hk0 hk1
      (fun o ho => hops o (List.mem_cons_of_mem _ ho))
    rw [Filer.file_run_cons, Filer.file_accepted_cons, this, hchunk]
    omega

/-- C6. The automatic flush fires exactly when the line count exceeds the
capacity.  On a file sink (file `p` open) and on a system-log sink freshly
constructed with threshold `T` and capacity `c`, `0 <= c < INT_MAX`, and given
`Writer` statements only: the counter after `j` accepted writes is `j` modulo
`c + 1`; the destination has received nothing as long as `j <= c`; the test of
the next accepted `Writer` call fires if and only if `j + 1` is a multiple of
`c + 1`.  The call itself does accordingly.  When `j + 1` is a multiple of
`c + 1` it runs `Write()` (its result is that of `Write()` on the state with
the header staged, for the file sink, and of staging the header after
`Write()`, for the system-log sink) and leaves the counter at zero, having
handed the file the whole buffer with the new header in one chunk (file sink),
or having passed the messages of the old buffer to the system log before
staging the new header (system-log sink).  When `j + 1` is no multiple of `c + 1` it hands the
destination nothing and only stages the header and counts the line.  A filtered
call hands the destination nothing and leaves buffer and counter alone.  On
the file sink the number of chunks handed to the file so far, one for each
flush, times `c + 1`, plus the counter, is `j`: there have been exactly
`floor(j / (c + 1))` flushes. -/
theorem autoflush_exactly_when_exceeded (c : Int) (hc0 : 0 ≤ c) (hc1 : c < 2 ^ 31 - 1)
    (T : LogLevel) (p name : List Char) (opsF : List Filer.Op) (opsS : List Syslog.Op)
    (hF : ∀ op ∈ opsF, op.isWrite = true) (hS : ∀ op ∈ opsS, op.isWrite = true) :
    ((Filer.run (Filer.new T p c true) opsF)._loglines =
        (Filer.accepted T opsF : Int) % (c + 1) ∧
      ((Filer.accepted T opsF : Int) ≤ c → (Filer.run (Filer.new T p c true) opsF).disk = []) ∧
      (∀ l, T ≤ l → (Filer.Writer_flushes (Filer.run (Filer.new T p c true) opsF) l = true ↔
        (c + 1) ∣ (Filer.accepted T opsF : Int) + 1)) ∧
      (∀ l ts, Filer.Writer_flushes (Filer.run (Filer.new T p c true) opsF) l = true →
        (Filer.Writer (Filer.run (Filer.new T p c true) opsF) l ts).1._loglines = 0 ∧
        (Filer.Writer (Filer.run (Filer.new T p c true) opsF) l ts).1.os = [] ∧
        (Filer.Writer (Filer.run (Filer.new T p c true) opsF) l ts).1.disk =
          (Filer.run (Filer.new T p c true) opsF).disk ++
            [(p, (Filer.run (Filer.new T p c true) opsF).os ++
              (ts ++ " ".toList ++ l.render ++ ": ".toList))]) ∧
      (∀ l ts, T ≤ l → (c + 1) ∣ (Filer.accepted T opsF : Int) + 1 →
        Filer.Writer (Filer.run (Filer.new T p c true) opsF) l ts =
          ({ Filer.run (Filer.new T p c true) opsF with
              os := [], nope := [], _loglines := 0,
              disk := (Filer.run (Filer.new T p c true) opsF).disk ++
                [(p, (Filer.run (Filer.new T p c true) opsF).os ++
                  (ts ++ " ".toList ++ l.render ++ ": ".toList))] }, Target.os) ∧
        Filer.Writer (Filer.run (Filer.new T p c true) opsF) l ts =
          ({ Filer.Write { Filer.run (Filer.new T p c true) opsF with
              os := (Filer.run (Filer.new T p c true) opsF).os ++
                (ts ++ " ".toList ++ l.render ++ ": ".toList) } with _loglines := 0 },
            Target.os)) ∧
      (∀ l ts, T ≤ l → ¬ (c + 1) ∣ (Filer.accepted T opsF : Int) + 1 →
        Filer.Writer (Filer.run (Filer.new T p c true) opsF) l ts =
          ({ Filer.run (Filer.new T p c true) opsF with
              os := (Filer.run (Filer.new T p c true) opsF).os ++
                (ts ++ " ".toList ++ l.render ++ ": ".toList),
              _loglines := (Filer.run (Filer.new T p c true) opsF)._loglines + 1 },
            Target.os)) ∧
      (∀ l ts, ¬ T ≤ l →
        Filer.Writer (Filer.run (Filer.new T p c true) opsF) l ts =
          ({ Filer.run (Filer.new T p c true) opsF with nope := [] }, Target.nope)) ∧
      ((Filer.run (Filer.new T p c true) opsF).disk.length : Int) * (c + 1) +
          (Filer.run (Filer.new T p c true) opsF)._loglines = (Filer.accepted T opsF : Int)) ∧
    ((Syslog.run (Syslog.new T name c) opsS)._loglines =
        (Syslog.accepted T opsS : Int) % (c + 1) ∧
      ((Syslog.accepted T opsS : Int) ≤ c → (Syslog.run (Syslog.new T name c) opsS).sent = []) ∧
      (∀ l, T ≤ l → (Syslog.Writer_flushes (Syslog.run (Syslog.new T name c) opsS) l = true ↔
        (c + 1) ∣ (Syslog.accepted T opsS : Int) + 1)) ∧
      (∀ l, Syslog.Writer_flushes (Syslog.run (Syslog.new T name c) opsS) l = true →
        (Syslog.Writer (Syslog.run (Syslog.new T name c) opsS) l).1._loglines = 0 ∧
        (Syslog.Writer (Syslog.run (Syslog.new T name c) opsS) l).1.os =
          l.render ++ ": ".toList ∧
        (Syslog.Writer (Syslog.run (Syslog.new T name c) opsS) l).1.sent =
          (Syslog.run (Syslog.new T name c) opsS).sent ++
            Syslog.Write_records (Syslog.run (Syslog.new T name c) opsS).os) ∧
      (∀ l, T ≤ l → (c + 1) ∣ (Syslog.accepted T opsS : Int) + 1 →
        Syslog.Writer (Syslog.run (Syslog.new T name c) opsS) l =
          ({ Syslog.run (Syslog.new T name c) opsS with
              os := l.render ++ ": ".toList, _loglines := 0,
              sent := (Syslog.run (Syslog.new T name c) opsS).sent ++
                Syslog.Write_records (Syslog.run (Syslog.new T name c) opsS).os },
            Target.os) ∧
        Syslog.Writer (Syslog.run (Syslog.new T name c) opsS) l =
          (Syslog.put { Syslog.Write (Syslog.run (Syslog.new T name c) opsS) with
              _loglines := 0 } Target.os (l.render ++ ": ".toList), Target.os)) ∧
      (∀ l, T ≤ l → ¬ (c + 1) ∣ (Syslog.accepted T opsS : Int) + 1 →
        Syslog.Writer (Syslog.run (Syslog.new T name c) opsS) l =
          ({ Syslog.run (Syslog.new T name c) opsS with
              os := (Syslog.run (Syslog.new T name c) opsS).os ++ (l.render ++ ": ".toList),
              _loglines := (Syslog.run (Syslog.new T name c) opsS)._loglines + 1 },
            Target.os)) ∧
      (∀ l, ¬ T ≤ l →
        Syslog.Writer (Syslog.run (Syslog.new T name c) opsS) l =
          ({ Syslog.run (Syslog.new T name c) opsS with nope := [] }, Target.nope))) := by
  constructor
  · obtain ⟨a1, a2, a3, a4⟩ := Filer.file_run_counter T hc0 hc1 opsF (Filer.new T p c true)
      rfl rfl (le_refl _) hc0 hF
    have hopen : Filer.OpenOn T p (Filer.new T p c true) := by
      simp [Filer.OpenOn, Filer.new, ofstream.init, ofstream.open_app]
    obtain ⟨⟨_, o2⟩, _⟩ := Filer.run_openOn opsF _ hopen
      (fun o ho => Filer.Op.isWriteOrFlush_of_isWrite (hF o ho))
    have hchunks := Filer.file_run_chunks T hc0 hc1 p opsF (Filer.new T p c true) hopen
      rfl (le_refl _) hc0 hF
    have e0 : (Filer.new T p c true)._loglines = 0 := rfl
    have d0 : (Filer.new T p c true).disk = [] := rfl
    rw [e0, zero_add] at a3 a4
    rw [e0, d0] at hchunks
    have hm : (0 : Int) < c + 1 := by omega
    have k0 := Int.emod_nonneg (Filer.accepted T opsF : Int) (show c + 1 ≠ 0 by omega)
    have k1 := Int.emod_lt_of_pos (Filer.accepted T opsF : Int) hm
    have hw : wrap32 ((Filer.run (Filer.new T p c true) opsF)._loglines + 1) =
        (Filer.run (Filer.new T p c true) opsF)._loglines + 1 := by
      rw [a3]
      exact wrap32_succ k0 (by omega) hc1
    have htest := counter_test_iff hc0 hc1 (Filer.accepted T opsF : Int)
    rw [← a3, hw] at htest
    refine ⟨a3, fun h => by rw [a4 h]; rfl, ?_, ?_, ?_, ?_, ?_, ?_⟩
    · intro l hl
      simp only [Filer.Writer_flushes, a1, a2, a3, hl, decide_True, Bool.true_and,
        decide_eq_true_eq]
      exact counter_test_iff hc0 hc1 _
    · intro l ts hfl
      simp only [Filer.Writer_flushes, Bool.and_eq_true, decide_eq_true_eq] at hfl
      obtain ⟨f1, f2⟩ := hfl
      simp [Filer.Writer, Filer.Write, ofstream.insert, f1, f2, o2]
    · intro l ts hl hdvd
      have hgt : (Filer.run (Filer.new T p c true) opsF)._loglines + 1 >
          (Filer.run (Filer.new T p c true) opsF)._bufferlines := by
        rw [a2]
        exact htest.mpr hdvd
      rw [← a1] at hl
      constructor <;> simp [Filer.Writer, Filer.Write, ofstream.insert, hl, hw, hgt, o2]
    · intro l ts hl hdvd
      have hgt : ¬ (Filer.run (Filer.new T p c true) opsF)._loglines + 1 >
          (Filer.run (Filer.new T p c true) opsF)._bufferlines := by
        rw [a2]
        exact fun h => hdvd (htest.mp h)
      rw [← a1] at hl
      simp only [Filer.Writer, hl, if_true, hw, hgt, if_false]
    · intro l ts hl
      rw [← a1] at hl
      simp only [Filer.Writer, hl, if_false]
    · simpa using hchunks
  · obtain ⟨a1, a2, a3, a4⟩ := Syslog.sys_run_counter T hc0 hc1 opsS (Syslog.new T name c)
      rfl rfl (le_refl _) hc0 hS
    have e0 : (Syslog.new T name c)._loglines = 0 := rfl
    rw [e0, zero_add] at a3 a4
    have hm : (0 : Int) < c + 1 := by omega
    have k0 := Int.emod_nonneg (Syslog.accepted T opsS : Int) (show c + 1 ≠ 0 by omega)
    have k1 := Int.emod_lt_of_pos (Syslog.accepted T opsS : Int) hm
    have hw : wrap32 ((Syslog.run (Syslog.new T name c) opsS)._loglines + 1) =
        (Syslog.run (Syslog.new T name c) opsS)._loglines + 1 := by
      rw [a3]
      exact wrap32_succ k0 (by omega) hc1
    have htest := counter_test_iff hc0 hc1 (Syslog.accepted T opsS : Int)
    rw [← a3, hw] at htest
    refine ⟨a3, fun h => by rw [a4 h]; rfl, ?_, ?_, ?_, ?_, ?_⟩
    · intro l hl
      simp only [Syslog.Writer_flushes, a1, a2, a3, hl, decide_True, Bool.true_and,
        decide_eq_true_eq]
      exact counter_test_iff hc0 hc1 _
    · intro l hfl
      simp only [Syslog.Writer_flushes, Bool.and_eq_true, decide_eq_true_eq] at hfl
      obtain ⟨f1, f2⟩ := hfl
      simp [Syslog.Writer, Syslog.Write, f1, f2]
    · intro l hl hdvd
      have hgt : (Syslog.run (Syslog.new T name c) opsS)._loglines + 1 >
          (Syslog.run (Syslog.new T name c) opsS)._bufferlines := by
        rw [a2]
        exact htest.mpr hdvd
      rw [← a1] at hl
      constructor <;> simp [Syslog.Writer, Syslog.Write, Syslog.put, hl, hw, hgt]
    · intro l hl hdvd
      have hgt : ¬ (Syslog.run (Syslog.new T name c) opsS)._loglines + 1 >
          (Syslog.run (Syslog.new T name c) opsS)._bufferlines := by
        rw [a2]
        exact fun h => hdvd (htest.mp h)
      rw [← a1] at hl
      simp only [Syslog.Writer, hl, if_true, hw, hgt, if_false]
    · intro l hl
      rw [← a1] at hl
      simp only [Syslog.Writer, hl, if_false]

/-- C6, the scenario of the specification: capacity 5; after five accepted
writes nothing has reached the destination and the counter is 5, the sixth
accepted `Writer` call flushes, and none of the first five does; and after
seven accepted writes, one flush behind, the eighth call hands the destination
nothing. -/
theorem autoflush_exactly_when_exceeded_witness :
    (∀ j < 5,
      Filer.Writer_flushes (Filer.run (Filer.new LogLevel.INFO "f".toList 5 true)
        (List.replicate j (Filer.Op.write LogLevel.WARN "t".toList "x\n".toList)))
        LogLevel.WARN = false ∧
      Syslog.Writer_flushes (Syslog.run (Syslog.new LogLevel.INFO "Log".toList 5)
        (List.replicate j (Syslog.Op.write LogLevel.WARN "x\n".toList))) LogLevel.WARN = false) ∧
    ((Filer.run (Filer.new LogLevel.INFO "f".toList 5 true)
        (List.replicate 5 (Filer.Op.write LogLevel.WARN "t".toList "x\n".toList)))._loglines = 5 ∧
      (Filer.run (Filer.new LogLevel.INFO "f".toList 5 true)
        (List.replicate 5 (Filer.Op.write LogLevel.WARN "t".toList "x\n".toList))).disk = [] ∧
      Filer.Writer_flushes (Filer.run (Filer.new LogLevel.INFO "f".toList 5 true)
        (List.replicate 5 (Filer.Op.write LogLevel.WARN "t".toList "x\n".toList)))
        LogLevel.WARN = true) ∧
    ((Syslog.run (Syslog.new LogLevel.INFO "Log".toList 5)
        (List.replicate 5 (Syslog.Op.write LogLevel.WARN "x\n".toList))).sent = [] ∧
      Syslog.Writer_flushes (Syslog.run (Syslog.new LogLevel.INFO "Log".toList 5)
        (List.replicate 5 (Syslog.Op.write LogLevel.WARN "x\n".toList))) LogLevel.WARN = true) ∧
    ((Filer.Writer (Filer.run (Filer.new LogLevel.INFO "f".toList 5 true)
        (List.replicate 7 (Filer.Op.write LogLevel.WARN "t".toList "x\n".toList)))
        LogLevel.WARN "t".toList).1.disk =
      (Filer.run (Filer.new LogLevel.INFO "f".toList 5 true)
        (List.replicate 7 (Filer.Op.write LogLevel.WARN "t".toList "x\n".toList))).disk ∧
     (Syslog.Writer (Syslog.run (Syslog.new LogLevel.INFO "Log".toList 5)
        (List.replicate 7 (Syslog.Op.write LogLevel.WARN "x\n".toList))) LogLevel.WARN).1.sent =
      (Syslog.run (Syslog.new LogLevel.INFO "Log".toList 5)
        (List.replicate 7 (Syslog.Op.write LogLevel.WARN "x\n".toList))).sent) := by
  have h := autoflush_exactly_when_exceeded 5 (by decide) (by decide) LogLevel.INFO
    "f".toList "Log".toList
    (List.replicate 5 (Filer.Op.write LogLevel.WARN "t".toList "x\n".toList))
    (List.replicate 5 (Syslog.Op.write LogLevel.WARN "x\n".toList))
    (by intro op hop; rw [List.eq_of_mem_replicate hop]; rfl)
    (by intro op hop; rw [List.eq_of_mem_replicate hop]; rfl)
  have h7 := autoflush_exactly_when_exceeded 5 (by decide) (by decide) LogLevel.INFO
    "f".toList "Log".toList
    (List.replicate 7 (Filer.Op.write LogLevel.WARN "t".toList "x\n".toList))
    (List.replicate 7 (Syslog.Op.write LogLevel.WARN "x\n".toList))
    (by intro op hop; rw [List.eq_of_mem_replicate hop]; rfl)
    (by intro op hop; rw [List.eq_of_mem_replicate hop]; rfl)
  obtain ⟨⟨f1, f2, f3, _⟩, ⟨_, y2, y3, _⟩⟩ := h
  obtain ⟨⟨_, _, _, _, _, g6, _⟩, ⟨_, _, _, _, _, z6, _⟩⟩ := h7
  refine ⟨by decide,
    ⟨by rw [f1]; decide, f2 (by decide), (f3 LogLevel.WARN (by decide)).mpr (by decide)⟩,
    ⟨y2 (by decide), (y3 LogLevel.WARN (by decide)).mpr (by decide)⟩,
    ⟨?_, ?_⟩⟩
  · rw [g6 LogLevel.WARN "t".toList (by decide) (by decide)]
  · rw [z6 LogLevel.WARN (by decide) (by decide)]

/-! ## Flushes, the counter bound, idempotence, and the threshold -/

/-- C7 as stated fails: an explicit flush does not reset the line counter.
On either sink with threshold `INFO` and capacity 5, after one accepted write
and the statement `Write()` the counter is 1, not 0. -/
theorem explicit_flush_keeps_counter :
    (Filer.Write (Filer.run (Filer.new LogLevel.INFO "f".toList 5 true)
        [Filer.Op.write LogLevel.WARN "t".toList "x\n".toList]))._loglines = 1 ∧
    (Syslog.Write (Syslog.run (Syslog.new LogLevel.INFO "Log".toList 5)
        [Syslog.Op.write LogLevel.WARN "x\n".toList]))._loglines = 1 := by
  decide

/-- C7, amended. After any flush the buffer holds nothing of what was staged:
an explicit `Write()` on either sink leaves the buffer empty and the line
counter as it was; the automatic flush inside `Writer` leaves the counter at
zero, with the buffer empty on the file sink and holding only the header of the
new line on the system-log sink. -/
theorem flush_empties_buffer (f : Filer) (y : Syslog) (l : LogLevel) (ts : List Char) :
    ((Filer.Write f).os = [] ∧ (Filer.Write f)._loglines = f._loglines) ∧
    ((Syslog.Write y).os = [] ∧ (Syslog.Write y)._loglines = y._loglines) ∧
    (Filer.Writer_flushes f l = true →
      (Filer.Writer f l ts).1.os = [] ∧ (Filer.Writer f l ts).1._loglines = 0) ∧
    (Syslog.Writer_flushes y l = true →
      (Syslog.Writer y l).1.os = l.render ++ ": ".toList ∧
        (Syslog.Writer y l).1._loglines = 0) := by
  refine ⟨⟨rfl, rfl⟩, ⟨rfl, rfl⟩, ?_, ?_⟩
  · intro h
    simp only [Filer.Writer_flushes, Bool.and_eq_true, decide_eq_true_eq] at h
    simp [Filer.Writer, Filer.Write, h.1, h.2]
  · intro h
    simp only [Syslog.Writer_flushes, Bool.and_eq_true, decide_eq_true_eq] at h
    simp [Syslog.Writer, Syslog.Write, h.1, h.2]

/-- C7, an instance: sinks of capacity 0 holding one staged line; the next
accepted `Writer` call flushes. -/
theorem flush_empties_buffer_witness :
    ((Filer.Writer (Filer.run (Filer.new LogLevel.INFO "f".toList 0 true)
        [Filer.Op.write LogLevel.WARN "t".toList "x\n".toList, Filer.Op.flush])
        LogLevel.WARN "u".toList).1.os = [] ∧
      (Filer.Writer (Filer.run (Filer.new LogLevel.INFO "f".toList 0 true)
        [Filer.Op.write LogLevel.WARN "t".toList "x\n".toList, Filer.Op.flush])
        LogLevel.WARN "u".toList).1._loglines = 0) ∧
    ((Syslog.Writer (Syslog.run (Syslog.new LogLevel.INFO "Log".toList 1)
        [Syslog.Op.write LogLevel.WARN "x\n".toList]) LogLevel.WARN).1.os = "WARN: ".toList ∧
      (Syslog.Writer (Syslog.run (Syslog.new LogLevel.INFO "Log".toList 1)
        [Syslog.Op.write LogLevel.WARN "x\n".toList]) LogLevel.WARN).1._loglines = 0) := by
  have h := flush_empties_buffer
    (Filer.run (Filer.new LogLevel.INFO "f".toList 0 true)
      [Filer.Op.write LogLevel.WARN "t".toList "x\n".toList, Filer.Op.flush])
    (Syslog.run (Syslog.new LogLevel.INFO "Log".toList 1)
      [Syslog.Op.write LogLevel.WARN "x\n".toList])
    LogLevel.WARN "u".toList
  exact ⟨h.2.2.1 (by decide), h.2.2.2 (by decide)⟩

theorem Filer.file_step_bound {c : Int} (hc1 : c < 2 ^ 31 - 1) {s : Filer}
    (hb : s._bufferlines = c) (h0 : 0 ≤ s._loglines) (h1 : s._loglines ≤ c) (op : Filer.Op) :
    (Filer.step s op)._bufferlines = c ∧ 0 ≤ (Filer.step s op)._loglines ∧
      (Filer.step s op)._loglines ≤ c := by
  obtain ⟨os, nope, lvl, lf, ll, bl, disk⟩ := s
  simp only at hb h0 h1
  subst hb
  cases op with
  | write l ts body =>
    have hw := wrap32_succ h0 h1 hc1
    by_cases hacc : lvl ≤ l
    · by_cases hgt : ll + 1 > bl
      · simp [Filer.step, Filer.Writer, Filer.Write, Filer.put, hacc, hw, hgt]
        omega
      · simp [Filer.step, Filer.Writer, Filer.put, hacc, hw, hgt]
        omega
    · simp [Filer.step, Filer.Writer, Filer.put, hacc]
      omega
  | put t text => cases t <;> exact ⟨rfl, h0, h1⟩
  | flush => exact ⟨rfl, h0, h1⟩
  | setLogLevel l => exact ⟨rfl, h0, h1⟩
  | setLogFile f g => exact ⟨rfl, h0, h1⟩
  | closeLogFile => exact ⟨rfl, h0, h1⟩

theorem Filer.file_run_bound {c : Int} (hc1 : c < 2 ^ 31 - 1) (ops : List Filer.Op) :
    ∀ (s : Filer), s._bufferlines = c → 0 ≤ s._loglines → s._loglines ≤ c →
      (Filer.run s ops)._bufferlines = c ∧ 0 ≤ (Filer.run s ops)._loglines ∧
        (Filer.run s ops)._loglines ≤ c := by
  induction ops with
  | nil => intro s hb h0 h1; exact ⟨hb, h0, h1⟩
  | cons op ops ih =>
    intro s hb h0 h1
    obtain ⟨a, b, d⟩ := Filer.file_step_bound hc1 hb h0 h1 op
    exact ih (Filer.step s op) a b d

theorem Syslog.sys_step_bound {c : Int} (hc1 : c < 2 ^ 31 - 1) {s : Syslog}
    (hb : s._bufferlines = c) (h0 : 0 ≤ s._loglines) (h1 : s._loglines ≤ c) (op : Syslog.Op) :
    (Syslog.step s op)._bufferlines = c ∧ 0 ≤ (Syslog.step s op)._loglines ∧
      (Syslog.step s op)._loglines ≤ c := by
  obtain ⟨os, nope, lvl, ll, bl, sent, nm, idt⟩ := s
  simp only at hb h0 h1
  subst hb
  cases op with
  | write l body =>
    have hw := wrap32_succ h0 h1 hc1
    by_cases hacc : lvl ≤ l
    · by_cases hgt : ll + 1 > bl
      · simp [Syslog.step, Syslog.Writer, Syslog.Write, Syslog.put, hacc, hw, hgt]
        omega
      · simp [Syslog.step, Syslog.Writer, Syslog.put, hacc, hw, hgt]
        omega
    · simp [Syslog.step, Syslog.Writer, Syslog.put, hacc]
      omega
  | put t text => cases t <;> exact ⟨rfl, h0, h1⟩
  | flush => exact ⟨rfl, h0, h1⟩
  | setLogLevel l => exact ⟨rfl, h0, h1⟩
  | setLogName n => exact ⟨rfl, h0, h1⟩

theorem Syslog.sys_run_bound {c : Int} (hc1 : c < 2 ^ 31 - 1) (ops : List Syslog.Op) :
    ∀ (s : Syslog), s._bufferlines = c → 0 ≤ s._loglines → s._loglines ≤ c →
      (Syslog.run s ops)._bufferlines = c ∧ 0 ≤ (Syslog.run s ops)._loglines ∧
        (Syslog.run s ops)._loglines ≤ c := by
  induction ops with
  | nil => intro s hb h0 h1; exact ⟨hb, h0, h1⟩
  | cons op ops ih =>
    intro s hb h0 h1
    obtain ⟨a, b, d⟩ := Syslog.sys_step_bound hc1 hb h0 h1 op
    exact ih (Syslog.step s op) a b d

/-- C8. Line counter bound: on either sink constructed with capacity `c`,
`0 <= c < INT_MAX`, after every finite sequence of statements (`Writer`
statements accepted or filtered, insertions into kept references, explicit
flushes, threshold changes, and the other methods of the sink) the line
counter lies between 0 and `c`. -/
theorem line_counter_bound (c : Int) (hc0 : 0 ≤ c) (hc1 : c < 2 ^ 31 - 1) (T : LogLevel)
    (p name : List Char) (granted : Bool) (opsF : List Filer.Op) (opsS : List Syslog.Op) :
    (0 ≤ (Filer.run (Filer.new T p c granted) opsF)._loglines ∧
      (Filer.run (Filer.new T p c granted) opsF)._loglines ≤ c) ∧
    (0 ≤ (Syslog.run (Syslog.new T name c) opsS)._loglines ∧
      (Syslog.run (Syslog.new T name c) opsS)._loglines ≤ c) :=
  ⟨(Filer.file_run_bound hc1 opsF (Filer.new T p c granted) rfl (le_refl _) hc0).2,
    (Syslog.sys_run_bound hc1 opsS (Syslog.new T name c) rfl (le_refl _) hc0).2⟩

/-- C8, an instance: capacity 2 and a mix of statements. -/
theorem line_counter_bound_witness :
    (0 ≤ (Filer.run (Filer.new LogLevel.INFO "f".toList 2 true)
        [Filer.Op.write LogLevel.WARN "t".toList "a\n".toList, Filer.Op.flush,
         Filer.Op.write LogLevel.TRACE "t".toList "b\n".toList,
         Filer.Op.setLogLevel LogLevel.TRACE,
         Filer.Op.write LogLevel.TRACE "t".toList "c\n".toList,
         Filer.Op.write LogLevel.INFO "t".toList "d\n".toList])._loglines ∧
      (Filer.run (Filer.new LogLevel.INFO "f".toList 2 true)
        [Filer.Op.write LogLevel.WARN "t".toList "a\n".toList, Filer.Op.flush,
         Filer.Op.write LogLevel.TRACE "t".toList "b\n".toList,
         Filer.Op.setLogLevel LogLevel.TRACE,
         Filer.Op.write LogLevel.TRACE "t".toList "c\n".toList,
         Filer.Op.write LogLevel.INFO "t".toList "d\n".toList])._loglines ≤ 2) ∧
    (0 ≤ (Syslog.run (Syslog.new LogLevel.INFO "Log".toList 2)
        [Syslog.Op.write LogLevel.WARN "a\n".toList, Syslog.Op.flush,
         Syslog.Op.write LogLevel.WARN "b\n".toList,
         Syslog.Op.write LogLevel.WARN "c\n".toList])._loglines ∧
      (Syslog.run (Syslog.new LogLevel.INFO "Log".toList 2)
        [Syslog.Op.write LogLevel.WARN "a\n".toList, Syslog.Op.flush,
         Syslog.Op.write LogLevel.WARN "b\n".toList,
         Syslog.Op.write LogLevel.WARN "c\n".toList])._loglines ≤ 2) :=
  line_counter_bound 2 (by decide) (by decide) LogLevel.INFO "f".toList "Log".toList true _ _

/-- C9. Flush is idempotent: on either sink and in every state, a second
`Write()` right after a first one leaves the text of every file and the
messages passed to the system log as the first one left them, and likewise the
buffer, the counter, the threshold, the capacity and the stream state; and a
flush of an empty buffer adds nothing to the destination. -/
theorem flush_idempotent (f : Filer) (y : Syslog) (p : List Char) :
    ((Filer.Write (Filer.Write f)).fileText p = (Filer.Write f).fileText p ∧
      (Filer.Write (Filer.Write f)).os = (Filer.Write f).os ∧
      (Filer.Write (Filer.Write f)).nope = (Filer.Write f).nope ∧
      (Filer.Write (Filer.Write f))._loglines = (Filer.Write f)._loglines ∧
      (Filer.Write (Filer.Write f))._level = (Filer.Write f)._level ∧
      (Filer.Write (Filer.Write f))._bufferlines = (Filer.Write f)._bufferlines ∧
      (Filer.Write (Filer.Write f))._logfile = (Filer.Write f)._logfile) ∧
    (Filer.Write { f with os := [] }).fileText p = f.fileText p ∧
    Syslog.Write (Syslog.Write y) = Syslog.Write y ∧
    (Syslog.Write { y with os := [] }).sent = y.sent := by
  obtain ⟨os, nope, lvl, lf, ll, bl, disk⟩ := f
  obtain ⟨is_open, failbit, path⟩ := lf
  refine ⟨⟨?_, rfl, rfl, rfl, rfl, rfl, ?_⟩, ?_, ?_, ?_⟩
  · cases is_open <;> cases failbit <;> by_cases h : os = [] <;> by_cases hp : path = p <;>
      simp [Filer.Write, Filer.fileText, ofstream.insert, Disk.text, List.filter_cons, h, hp]
  · cases is_open <;> cases failbit <;> by_cases h : os = [] <;>
      simp [Filer.Write, ofstream.insert, h]
  · cases is_open <;> cases failbit <;> by_cases hp : path = p <;>
      simp [Filer.Write, Filer.fileText, ofstream.insert, Disk.text, List.filter_cons, hp]
  · simp [Syslog.Write, Syslog.Write_records, c_str0]
  · simp [Syslog.Write, Syslog.Write_records, c_str0]

/-- C10. `SetLogLevel` changes only the threshold: on either sink, in every
state and for every level `L`, after `SetLogLevel(L)` the sink is the old one
with threshold `L` (buffer, counter, capacity and destination untouched),
`GetLogLevel` returns `L`, the next flush delivers what the old state would
have delivered, and a following `Writer(m)` returns the real buffer if and
only if `m >= L`.  Scenario: a sink constructed at `INFO` and set to `WARN`
drops an `INFO` write and keeps a `WARN` write. -/
theorem SetLogLevel_changes_only_threshold (f : Filer) (y : Syslog) (L m : LogLevel)
    (ts : List Char) :
    ((Filer.SetLogLevel f L).1 = { f with _level := L } ∧
      Filer.GetLogLevel (Filer.SetLogLevel f L).1 = L ∧
      (Filer.Write (Filer.SetLogLevel f L).1).disk = (Filer.Write f).disk ∧
      ((Filer.Writer (Filer.SetLogLevel f L).1 m ts).2 = Target.os ↔ L ≤ m)) ∧
    ((Syslog.SetLogLevel y L).1 = { y with _level := L } ∧
      Syslog.GetLogLevel (Syslog.SetLogLevel y L).1 = L ∧
      (Syslog.Write (Syslog.SetLogLevel y L).1).sent = (Syslog.Write y).sent ∧
      ((Syslog.Writer (Syslog.SetLogLevel y L).1 m).2 = Target.os ↔ L ≤ m)) ∧
    (Filer.Write (Filer.run (Filer.new LogLevel.INFO "f".toList 5 true)
        [Filer.Op.setLogLevel LogLevel.WARN,
         Filer.Op.write LogLevel.INFO "t1".toList "hidden\n".toList,
         Filer.Op.write LogLevel.WARN "t2".toList "shown\n".toList])).fileText "f".toList =
      "t2 WARN: shown\n".toList ∧
    (Syslog.Write (Syslog.run (Syslog.new LogLevel.INFO "Log".toList 5)
        [Syslog.Op.setLogLevel LogLevel.WARN,
         Syslog.Op.write LogLevel.INFO "hidden\n".toList,
         Syslog.Op.write LogLevel.WARN "shown\n".toList])).sent = ["WARN: shown".toList] := by
  refine ⟨⟨rfl, rfl, rfl, ?_⟩, ⟨rfl, rfl, rfl, ?_⟩, by decide, by decide⟩
  · by_cases h : L ≤ m
    · by_cases hgt : wrap32 (f._loglines + 1) > f._bufferlines <;>
        simp [Filer.Writer, Filer.SetLogLevel, h, hgt]
    · simp [Filer.Writer, Filer.SetLogLevel, h]
  · by_cases h : L ≤ m <;> simp [Syslog.Writer, Syslog.SetLogLevel, h]

/-! ## The value returned by `SetLogLevel`, re-pointing, teardown, construction -/

/-- C11 as stated fails: `SetLogLevel` returns the level it has just stored.
On a sink constructed at `INFO`, `SetLogLevel(WARN)` returns `WARN`, not the
threshold `INFO` that was in force before the call. -/
theorem SetLogLevel_returns_not_old :
    (Filer.SetLogLevel (Filer.new LogLevel.INFO "f".toList 5 true) LogLevel.WARN).2
        = LogLevel.WARN ∧
    (Filer.new LogLevel.INFO "f".toList 5 true)._level = LogLevel.INFO ∧
    (Syslog.SetLogLevel (Syslog.new LogLevel.INFO "Log".toList 5) LogLevel.WARN).2
        = LogLevel.WARN ∧
    (Syslog.new LogLevel.INFO "Log".toList 5)._level = LogLevel.INFO ∧
    LogLevel.WARN ≠ LogLevel.INFO := by
  decide

/-- C11, amended. `SetLogLevel` returns the new level: for either sink, every
state and every level `L`, `SetLogLevel(L)` returns `L`, which is the threshold
in force after the call (what `GetLogLevel` then returns). -/
theorem SetLogLevel_returns_new (f : Filer) (y : Syslog) (L : LogLevel) :
    ((Filer.SetLogLevel f L).2 = L ∧
      (Filer.SetLogLevel f L).2 = Filer.GetLogLevel (Filer.SetLogLevel f L).1) ∧
    ((Syslog.SetLogLevel y L).2 = L ∧
      (Syslog.SetLogLevel y L).2 = Syslog.GetLogLevel (Syslog.SetLogLevel y L).1) :=
  ⟨⟨rfl, rfl⟩, ⟨rfl, rfl⟩⟩

/-- C12. Re-pointing a file sink forces no flush: in every state and for every
new path `p`, `SetLogFile(p)` leaves the buffer, the scratch stream, the line
counter, the threshold and the capacity as they were and hands nothing to any
file, whether the new file opens or not; when it opens, the next flush appends
the content buffered before the switch to `p` and to no other file, the old
one included. -/
theorem SetLogFile_forces_no_flush (s : Filer) (p : List Char) (granted : Bool) :
    ((Filer.SetLogFile s p granted).os = s.os ∧
      (Filer.SetLogFile s p granted).nope = s.nope ∧
      (Filer.SetLogFile s p granted)._loglines = s._loglines ∧
      (Filer.SetLogFile s p granted)._level = s._level ∧
      (Filer.SetLogFile s p granted)._bufferlines = s._bufferlines ∧
      (Filer.SetLogFile s p granted).disk = s.disk) ∧
    (Filer.SetLogFile s p true)._logfile = ⟨true, false, p⟩ ∧
    (∀ q, (Filer.Write (Filer.SetLogFile s p true)).fileText q =
      s.fileText q ++ (if p = q then s.os else [])) ∧
    (Filer.Write (Filer.SetLogFile
        (Filer.run (Filer.new LogLevel.INFO "old.log".toList 5 true)
          [Filer.Op.write LogLevel.WARN "t".toList "kept\n".toList])
        "new.log".toList true)).disk = [("new.log".toList, "t WARN: kept\n".toList)] := by
  obtain ⟨os, nope, lvl, lf, ll, bl, disk⟩ := s
  obtain ⟨is_open, failbit, path⟩ := lf
  refine ⟨⟨rfl, rfl, rfl, rfl, rfl, rfl⟩, ?_, ?_, by decide⟩
  · cases is_open <;> simp [Filer.SetLogFile, ofstream.close, ofstream.open_app]
  · intro q
    cases is_open <;>
      simp [Filer.SetLogFile, Filer.Write, Filer.fileText, ofstream.close, ofstream.open_app,
        ofstream.insert, Disk.text_append_single]

/-- C13 as stated fails: the destructor of the system-log sink runs the
ordinary `Write()`, which never emits a last line without terminator.  With
the buffer "A" newline "B" newline "C" the teardown passes "A" and "B" to the
system log and empties the buffer: "C" is lost.  And a file sink whose stream
was closed by `CloseLogFile` loses at teardown what was written since. -/
theorem teardown_loses_unterminated_line :
    (Syslog.destroy (Syslog.put (Syslog.new LogLevel.INFO "Log".toList 5) Target.os
        "A\nB\nC".toList)).sent = ["A".toList, "B".toList] ∧
    (Syslog.destroy (Syslog.put (Syslog.new LogLevel.INFO "Log".toList 5) Target.os
        "A\nB\nC".toList)).os = [] ∧
    (Filer.destroy (Filer.run (Filer.new LogLevel.INFO "f".toList 5 true)
        [Filer.Op.closeLogFile,
         Filer.Op.write LogLevel.WARN "t".toList "late\n".toList])).fileText "f".toList = [] ∧
    (Filer.destroy (Filer.run (Filer.new LogLevel.INFO "f".toList 5 true)
        [Filer.Op.closeLogFile,
         Filer.Op.write LogLevel.WARN "t".toList "late\n".toList])).os = [] := by
  decide

/-- C13, amended. Teardown performs a final flush and then releases the
resource.  A file sink whose stream is open on `p` without error hands `p` its
entire buffer, empties the buffer and closes the stream.  The system-log sink
runs its ordinary `Write()`: for a buffer made of lines `l1 .. lk`, each
non-empty, free of newlines and of NUL characters and followed by a newline,
and of a rest `t` free of newlines, shorter than `2 ^ 31` characters in all,
exactly `l1 .. lk` are passed to the system log, the buffer is emptied, and the
unterminated rest `t` is dropped. -/
theorem teardown_flushes (f : Filer) (p : List Char) (y : Syslog) (ls : List (List Char))
    (t : List Char) (hopen : f._logfile = ⟨true, false, p⟩)
    (hbuf : y.os = linesBuffer ls t) (hls : ∀ l ∈ ls, l ≠ [] ∧ '\n' ∉ l ∧ '\x00' ∉ l)
    (ht : '\n' ∉ t) (hsize : y.os.length < 2 ^ 31) :
    ((∀ q, (Filer.destroy f).fileText q = f.fileText q ++ (if p = q then f.os else [])) ∧
      (Filer.destroy f).os = [] ∧ (Filer.destroy f)._logfile.is_open = false ∧
      (Filer.destroy f)._logfile.failbit = false) ∧
    ((Syslog.destroy y).sent = y.sent ++ ls ∧ (Syslog.destroy y).os = []) := by
  constructor
  · obtain ⟨os, nope, lvl, lf, ll, bl, disk⟩ := f
    simp only at hopen
    subst hopen
    refine ⟨fun q => ?_, ?_, ?_, ?_⟩ <;>
      simp [Filer.destroy, Filer.Write, Filer.fileText, ofstream.insert, ofstream.close,
        Disk.text_append_single]
  · rw [hbuf] at hsize
    simp [Syslog.destroy, Syslog.Write, hbuf, Syslog.Write_records_lines ls t hls ht hsize]

/-- C13, an instance: a file sink and a system-log sink that each hold two
accepted lines. -/
theorem teardown_flushes_witness :
    (Filer.destroy (Filer.run (Filer.new LogLevel.INFO "f".toList 5 true)
        [Filer.Op.write LogLevel.WARN "t".toList "a\n".toList,
         Filer.Op.write LogLevel.INFO "u".toList "b\n".toList])).fileText "f".toList =
      "t WARN: a\nu INFO: b\n".toList ∧
    (Syslog.destroy (Syslog.run (Syslog.new LogLevel.INFO "Log".toList 5)
        [Syslog.Op.write LogLevel.WARN "a\n".toList,
         Syslog.Op.write LogLevel.INFO "b\n".toList])).sent =
      ["WARN: a".toList, "INFO: b".toList] := by
  have h := teardown_flushes
    (Filer.run (Filer.new LogLevel.INFO "f".toList 5 true)
      [Filer.Op.write LogLevel.WARN "t".toList "a\n".toList,
       Filer.Op.write LogLevel.INFO "u".toList "b\n".toList])
    "f".toList
    (Syslog.run (Syslog.new LogLevel.INFO "Log".toList 5)
      [Syslog.Op.write LogLevel.WARN "a\n".toList,
       Syslog.Op.write LogLevel.INFO "b\n".toList])
    ["WARN: a".toList, "INFO: b".toList] [] (by decide) (by decide) (by decide) (by decide)
    (by decide)
  refine ⟨?_, ?_⟩
  · rw [h.1.1]; decide
  · rw [h.2.1]; decide

theorem Filer.step_failed {s : Filer} (hfail : s._logfile.failbit = true) (op : Filer.Op)
    (hop : op.isWriteOrFlush = true) :
    (Filer.step s op)._logfile.failbit = true ∧ (Filer.step s op).disk = s.disk := by
  obtain ⟨os, nope, lvl, lf, ll, bl, disk⟩ := s
  obtain ⟨is_open, failbit, path⟩ := lf
  simp only at hfail
  subst hfail
  cases op with
  | write l ts body =>
    by_cases hacc : lvl ≤ l <;> by_cases hgt : wrap32 (ll + 1) > bl <;>
      simp [Filer.step, Filer.Writer, Filer.Write, Filer.put, ofstream.insert, hacc, hgt]
  | flush => simp [Filer.step, Filer.Write, ofstream.insert]
  | put t text => simp [Filer.Op.isWriteOrFlush] at hop
  | setLogLevel l => simp [Filer.Op.isWriteOrFlush] at hop
  | setLogFile f g => simp [Filer.Op.isWriteOrFlush] at hop
  | closeLogFile => simp [Filer.Op.isWriteOrFlush] at hop

theorem Filer.run_failed (ops : List Filer.Op) :
    ∀ (s : Filer), s._logfile.failbit = true → (∀ op ∈ ops, op.isWriteOrFlush = true) →
      (Filer.run s ops)._logfile.failbit = true ∧ (Filer.run s ops).disk = s.disk := by
  induction ops with
  | nil => intro s h _; exact ⟨h, rfl⟩
  | cons op ops ih =>
    intro s h hops
    obtain ⟨a, b⟩ := Filer.step_failed h op (hops op (List.mem_cons_self _ _))
    obtain ⟨c, d⟩ := ih (Filer.step s op) a (fun o ho => hops o (List.mem_cons_of_mem _ ho))
    exact ⟨c, by rw [Filer.file_run_cons, d, b]⟩

/-- C14 as stated fails: the constructor never fails.  For a path that the
operating system does not open it yields a sink whose stream is not open; the
sink takes a `WARN` write, and the flush empties the buffer without delivering
anything. -/
theorem Filer.constructed_on_unopenable_path :
    (Filer.new LogLevel.INFO "/no/such/dir/log.log".toList 5 false)._logfile.is_open = false ∧
    (Filer.run (Filer.new LogLevel.INFO "/no/such/dir/log.log".toList 5 false)
        [Filer.Op.write LogLevel.WARN "t".toList "lost\n".toList]).os =
      "t WARN: lost\n".toList ∧
    (Filer.run (Filer.new LogLevel.INFO "/no/such/dir/log.log".toList 5 false)
        [Filer.Op.write LogLevel.WARN "t".toList "lost\n".toList, Filer.Op.flush]).os = [] ∧
    (Filer.run (Filer.new LogLevel.INFO "/no/such/dir/log.log".toList 5 false)
        [Filer.Op.write LogLevel.WARN "t".toList "lost\n".toList, Filer.Op.flush]).disk = [] := by
  decide

/-- C14, amended. A failure to open the destination is not detected:
constructing a file sink always yields a sink.  When the path cannot be opened
for append the stream of the sink is not open and carries an error bit, and
through every sequence of `Writer` statements and flushes, and the destructor
after them, nothing is handed to any file, each flush leaving the buffer
empty.  When the path opens, the stream is open on it without error, and a
flush of a sink in that condition appends the whole buffer to the file. -/
theorem Filer.construction_never_fails (T : LogLevel) (p : List Char) (c : Int)
    (ops : List Filer.Op) (hops : ∀ op ∈ ops, op.isWriteOrFlush = true)
    (s : Filer) (hopen : s._logfile = ⟨true, false, p⟩) :
    ((Filer.new T p c false)._logfile = ⟨false, true, []⟩ ∧
      (Filer.run (Filer.new T p c false) ops).disk = [] ∧
      (Filer.Write (Filer.run (Filer.new T p c false) ops)).disk = [] ∧
      (Filer.Write (Filer.run (Filer.new T p c false) ops)).os = [] ∧
      (Filer.destroy (Filer.run (Filer.new T p c false) ops)).disk = []) ∧
    ((Filer.new T p c true)._logfile = ⟨true, false, p⟩ ∧
      (∀ q, (Filer.Write s).fileText q = s.fileText q ++ (if p = q then s.os else [])) ∧
      (Filer.Write s).os = []) := by
  constructor
  · have h0 : (Filer.new T p c false)._logfile.failbit = true := by
      simp [Filer.new, ofstream.init, ofstream.open_app]
    obtain ⟨a, b⟩ := Filer.run_failed ops _ h0 hops
    have hd : (Filer.run (Filer.new T p c false) ops).disk = [] := by rw [b]; rfl
    refine ⟨by simp [Filer.new, ofstream.init, ofstream.open_app], hd, ?_, rfl, ?_⟩
    · simp [Filer.Write, ofstream.insert, a, hd]
    · simp [Filer.destroy, Filer.Write, ofstream.insert, a, hd]
  · obtain ⟨os, nope, lvl, lf, ll, bl, disk⟩ := s
    simp only at hopen
    subst hopen
    refine ⟨by simp [Filer.new, ofstream.init, ofstream.open_app], fun q => ?_, rfl⟩
    simp [Filer.Write, Filer.fileText, ofstream.insert, Disk.text_append_single]

/-- C14, an instance: the driver's first two writes on a path that does not
open, and a flush of a sink whose file opened. -/
theorem Filer.construction_never_fails_witness :
    (Filer.Write (Filer.run (Filer.new LogLevel.INFO "/var/log/log.log".toList 5 false)
        [Filer.Op.write LogLevel.INFO "t".toList "This is info\n".toList,
         Filer.Op.write LogLevel.WARN "t".toList "Variable x=42\n".toList])).disk = [] ∧
    (Filer.Write (Filer.run (Filer.new LogLevel.INFO "/var/log/log.log".toList 5 true)
        [Filer.Op.write LogLevel.WARN "t".toList "Variable x=42\n".toList])).fileText
        "/var/log/log.log".toList = "t WARN: Variable x=42\n".toList := by
  have h := Filer.construction_never_fails LogLevel.INFO "/var/log/log.log".toList 5
    [Filer.Op.write LogLevel.INFO "t".toList "This is info\n".toList,
     Filer.Op.write LogLevel.WARN "t".toList "Variable x=42\n".toList]
    (by
      intro op hop
      simp only [List.mem_cons, List.mem_singleton, List.not_mem_nil, or_false] at hop
      rcases hop with rfl | rfl <;> rfl)
    (Filer.run (Filer.new LogLevel.INFO "/var/log/log.log".toList 5 true)
      [Filer.Op.write LogLevel.WARN "t".toList "Variable x=42\n".toList])
    (by decide)
  refine ⟨h.1.2.2.1, ?_⟩
  rw [h.2.2.1]
  decide

/-! ## Severity rendering and the tag of the system log -/

/-- C15. Severity rendering: the four enumerators have the ordinals 0 to 3 and
render as "TRACE", "INFO", "WARN" and "CRITICAL", four different texts; every
value whose ordinal is outside 0..3 renders as "UNKNOWN"; and the order of the
levels is that of the ordinals, with `TRACE < INFO < WARN < CRITICAL`. -/
theorem render_severity (l a b : LogLevel) (hout : l.ord < 0 ∨ 3 < l.ord) :
    (LogLevel.TRACE.render = "TRACE".toList ∧ LogLevel.INFO.render = "INFO".toList ∧
      LogLevel.WARN.render = "WARN".toList ∧
      LogLevel.CRITICAL.render = "CRITICAL".toList) ∧
    (LogLevel.TRACE.ord = 0 ∧ LogLevel.INFO.ord = 1 ∧ LogLevel.WARN.ord = 2 ∧
      LogLevel.CRITICAL.ord = 3) ∧
    l.render = "UNKNOWN".toList ∧
    [LogLevel.TRACE.render, LogLevel.INFO.render, LogLevel.WARN.render,
      LogLevel.CRITICAL.render].Nodup ∧
    (LogLevel.TRACE < LogLevel.INFO ∧ LogLevel.INFO < LogLevel.WARN ∧
      LogLevel.WARN < LogLevel.CRITICAL) ∧
    ((a ≤ b ↔ a.ord ≤ b.ord) ∧ (a < b ↔ a.ord < b.ord) ∧ (a = b ↔ a.ord = b.ord)) := by
  refine ⟨by decide, by decide, ?_, by decide, by decide, Iff.rfl, Iff.rfl, ?_⟩
  · obtain ⟨n⟩ := l
    simp only at hout
    have h0 : (⟨n⟩ : LogLevel) ≠ LogLevel.TRACE := by
      intro e; injection e with e; omega
    have h1 : (⟨n⟩ : LogLevel) ≠ LogLevel.INFO := by
      intro e; injection e with e; omega
    have h2 : (⟨n⟩ : LogLevel) ≠ LogLevel.WARN := by
      intro e; injection e with e; omega
    have h3 : (⟨n⟩ : LogLevel) ≠ LogLevel.CRITICAL := by
      intro e; injection e with e; omega
    simp [LogLevel.render, h0, h1, h2, h3]
  · obtain ⟨m⟩ := a
    obtain ⟨n⟩ := b
    simp

/-- C15, an instance: the value with ordinal 7, obtained by a cast. -/
theorem render_severity_witness :
    (⟨7⟩ : LogLevel).render = "UNKNOWN".toList ∧ (⟨-1⟩ : LogLevel).render = "UNKNOWN".toList :=
  ⟨(render_severity ⟨7⟩ LogLevel.TRACE LogLevel.INFO (Or.inr (by decide))).2.2.1,
    (render_severity ⟨-1⟩ LogLevel.TRACE LogLevel.INFO (Or.inl (by decide))).2.2.1⟩

theorem c_str_no_nul (s : List Char) : '\x00' ∉ c_str s := by
  unfold c_str
  intro h
  have := List.mem_takeWhile_imp h
  simp at this

theorem c_str_prefix (s : List Char) : c_str s <+: s := by
  unfold c_str
  exact List.takeWhile_prefix _

theorem c_str_append_nul (a b : List Char) (h : '\x00' ∉ a) : c_str (a ++ '\x00' :: b) = a := by
  unfold c_str
  induction a with
  | nil => simp
  | cons x xs ih =>
    have hx : x ≠ '\x00' := fun e => h (e ▸ List.mem_cons_self _ _)
    have hxs : '\x00' ∉ xs := fun m => h (List.mem_cons_of_mem _ m)
    simp [List.takeWhile_cons, hx, ih hxs]

/-- A tag shorter than the array is copied whole and terminated: the tag
registered is the tag given, up to its first NUL. -/
theorem Syslog.SetLogName_short (s : Syslog) (logname : List Char)
    (h : (c_str logname).length < syslogname_size) :
    (Syslog.SetLogName s logname).syslogname.length = syslogname_size ∧
      (Syslog.SetLogName s logname).ident = some (c_str logname) := by
  have hnul := c_str_no_nul logname
  have htake : (c_str logname).take syslogname_size = c_str logname :=
    List.take_of_length_le (by omega)
  have hrep : List.replicate (syslogname_size - (c_str logname).length) '\x00' =
      '\x00' :: List.replicate (syslogname_size - (c_str logname).length - 1) '\x00' := by
    rw [← List.replicate_succ]
    congr 1
    omega
  constructor
  · simp only [Syslog.SetLogName, strncpy, htake, List.length_append, List.length_replicate]
    omega
  · simp only [Syslog.SetLogName, strncpy, htake, readCStr]
    rw [hrep, c_str_append_nul _ _ hnul]
    simp

/-- A tag of at least as many characters as the array has fills the array and
leaves no terminator in it. -/
theorem Syslog.SetLogName_long (s : Syslog) (logname : List Char)
    (h : syslogname_size ≤ (c_str logname).length) :
    (Syslog.SetLogName s logname).syslogname = (c_str logname).take syslogname_size ∧
      '\x00' ∉ (Syslog.SetLogName s logname).syslogname ∧
      (Syslog.SetLogName s logname).ident = none := by
  have hnul := c_str_no_nul logname
  have hlen : ((c_str logname).take syslogname_size).length = syslogname_size := by
    rw [List.length_take]
    omega
  have hbuf : strncpy logname syslogname_size = (c_str logname).take syslogname_size := by
    simp [strncpy, hlen]
  have hno : '\x00' ∉ (c_str logname).take syslogname_size :=
    fun m => hnul (List.mem_of_mem_take m)
  refine ⟨by simp [Syslog.SetLogName, hbuf], by simpa [Syslog.SetLogName, hbuf] using hno, ?_⟩
  simp [Syslog.SetLogName, hbuf, readCStr, hno]

/-- C16. `SetLogName` leaves the tag array without terminator when the tag
has twelve characters or more: after `SetLogName` with the tag
"ABCDEFGHIJKL" the twelve bytes of `syslogname` are those twelve letters, none
of them NUL, so the string that `openlog` is given does not end inside the
array; the same holds for the longer tag "my-application"; the tag "Logger"
is stored with its terminator. -/
theorem Syslog.SetLogName_without_terminator :
    (Syslog.SetLogName (Syslog.new LogLevel.INFO "Log".toList 5)
        "ABCDEFGHIJKL".toList).syslogname = "ABCDEFGHIJKL".toList ∧
    '\x00' ∉ (Syslog.SetLogName (Syslog.new LogLevel.INFO "Log".toList 5)
        "ABCDEFGHIJKL".toList).syslogname ∧
    (Syslog.SetLogName (Syslog.new LogLevel.INFO "Log".toList 5)
        "ABCDEFGHIJKL".toList).ident = none ∧
    (Syslog.SetLogName (Syslog.new LogLevel.INFO "Log".toList 5)
        "my-application".toList).syslogname = "my-applicati".toList ∧
    (Syslog.SetLogName (Syslog.new LogLevel.INFO "Log".toList 5)
        "my-application".toList).ident = none ∧
    (Syslog.SetLogName (Syslog.new LogLevel.INFO "Log".toList 5)
        "Logger".toList).ident = some "Logger".toList := by
  decide

/-! ## The number of staged lines and the place of the automatic flush -/

theorem lineCount_append (a b : List Char) : lineCount (a ++ b) = lineCount a + lineCount b := by
  simp [lineCount]

theorem lineCount_of_not_mem {a : List Char} (h : '\n' ∉ a) : lineCount a = 0 := by
  simpa [lineCount] using List.count_eq_zero_of_not_mem h

theorem lineCount_line {m : List Char} (h : '\n' ∉ m) : lineCount (m ++ ['\n']) = 1 := by
  rw [lineCount_append, lineCount_of_not_mem h]
  rfl

theorem lineCount_nil : lineCount [] = 0 := rfl

theorem Syslog.sys_step_bounded {T : LogLevel} {c : Int} (hc1 : c < 2 ^ 31 - 1) {s : Syslog}
    (h : Syslog.Bounded T c s) (op : Syslog.Op) (hop : op.isWriteOrFlush = true)
    (hbody : op.bodyIsTerminated) : Syslog.Bounded T c (Syslog.step s op) := by
  obtain ⟨os, nope, lvl, ll, bl, sent, nm, idt⟩ := s
  obtain ⟨hl, hb, h0, h1, h2⟩ := h
  simp only at hl hb h0 h1 h2
  subst hl hb
  cases op with
  | write l body =>
    obtain ⟨m, rfl, hm1⟩ := hbody
    have hw := wrap32_succ h0 h1 hc1
    have hr : List.count '\n' l.render = 0 :=
      List.count_eq_zero_of_not_mem (LogLevel.render_clean l).2.1
    have hm : List.count '\n' m = 0 := List.count_eq_zero_of_not_mem hm1
    simp only [lineCount] at h2
    by_cases hacc : lvl ≤ l
    · by_cases hgt : ll + 1 > bl
      · refine ⟨?_, ?_, ?_, ?_, ?_⟩ <;>
          simp [Syslog.step, Syslog.Writer, Syslog.Write, Syslog.put, hacc, hw, hgt,
            lineCount, List.count_cons, hr, hm]
        omega
      · refine ⟨?_, ?_, ?_, ?_, ?_⟩ <;>
          simp [Syslog.step, Syslog.Writer, Syslog.put, hacc, hw, hgt,
            lineCount, List.count_cons, hr, hm]
        · omega
        · omega
        · omega
    · refine ⟨?_, ?_, ?_, ?_, ?_⟩ <;>
        simp [Syslog.step, Syslog.Writer, Syslog.put, hacc, h0, h1, h2, lineCount]
  | flush =>
    refine ⟨rfl, rfl, h0, h1, ?_⟩
    simp [Syslog.step, Syslog.Write, lineCount_nil]
    omega
  | put t text => simp [Syslog.Op.isWriteOrFlush] at hop
  | setLogLevel l => simp [Syslog.Op.isWriteOrFlush] at hop
  | setLogName n => simp [Syslog.Op.isWriteOrFlush] at hop

theorem Syslog.sys_run_bounded {T : LogLevel} {c : Int} (hc1 : c < 2 ^ 31 - 1)
    (ops : List Syslog.Op) :
    ∀ (s : Syslog), Syslog.Bounded T c s → (∀ op ∈ ops, op.isWriteOrFlush = true) →
      (∀ op ∈ ops, op.bodyIsTerminated) → Syslog.Bounded T c (Syslog.run s ops) := by
  induction ops with
  | nil => intro s h _ _; exact h
  | cons op ops ih =>
    intro s h hops hbody
    exact ih (Syslog.step s op)
      (Syslog.sys_step_bounded hc1 h op (hops op (List.mem_cons_self _ _))
        (hbody op (List.mem_cons_self _ _)))
      (fun o ho => hops o (List.mem_cons_of_mem _ ho))
      (fun o ho => hbody o (List.mem_cons_of_mem _ ho))

theorem Filer.file_step_bounded {T : LogLevel} {c : Int} (hc1 : c < 2 ^ 31 - 1) {s : Filer}
    (h : Filer.Bounded T c s) (op : Filer.Op) (hop : op.isWriteOrFlush = true)
    (hbody : op.bodyIsLine) : Filer.Bounded T c (Filer.step s op) := by
  obtain ⟨os, nope, lvl, lf, ll, bl, disk⟩ := s
  obtain ⟨hl, hb, h0, h1, h2⟩ := h
  simp only at hl hb h0 h1 h2
  subst hl hb
  cases op with
  | write l ts body =>
    obtain ⟨hts, m, rfl, hm1⟩ := hbody
    have hw := wrap32_succ h0 h1 hc1
    have hr : List.count '\n' l.render = 0 :=
      List.count_eq_zero_of_not_mem (LogLevel.render_clean l).2.1
    have ht : List.count '\n' ts = 0 := List.count_eq_zero_of_not_mem hts
    have hm : List.count '\n' m = 0 := List.count_eq_zero_of_not_mem hm1
    simp only [lineCount] at h2
    by_cases hacc : lvl ≤ l
    · by_cases hgt : ll + 1 > bl
      · refine ⟨?_, ?_, ?_, ?_, ?_⟩ <;>
          simp [Filer.step, Filer.Writer, Filer.Write, Filer.put, hacc, hw, hgt,
            lineCount, List.count_cons, hr, ht, hm]
        omega
      · refine ⟨?_, ?_, ?_, ?_, ?_⟩ <;>
          simp [Filer.step, Filer.Writer, Filer.put, hacc, hw, hgt,
            lineCount, List.count_cons, hr, ht, hm]
        · omega
        · omega
        · omega
    · refine ⟨?_, ?_, ?_, ?_, ?_⟩ <;>
        simp [Filer.step, Filer.Writer, Filer.put, hacc, h0, h1, h2, lineCount]
  | flush =>
    refine ⟨rfl, rfl, h0, h1, ?_⟩
    simp [Filer.step, Filer.Write, lineCount_nil]
    omega
  | put t text => simp [Filer.Op.isWriteOrFlush] at hop
  | setLogLevel l => simp [Filer.Op.isWriteOrFlush] at hop
  | setLogFile f g => simp [Filer.Op.isWriteOrFlush] at hop
  | closeLogFile => simp [Filer.Op.isWriteOrFlush] at hop

theorem Filer.file_run_bounded {T : LogLevel} {c : Int} (hc1 : c < 2 ^ 31 - 1)
    (ops : List Filer.Op) :
    ∀ (s : Filer), Filer.Bounded T c s → (∀ op ∈ ops, op.isWriteOrFlush = true) →
      (∀ op ∈ ops, op.bodyIsLine) → Filer.Bounded T c (Filer.run s ops) := by
  induction ops with
  | nil => intro s h _ _; exact h
  | cons op ops ih =>
    intro s h hops hbody
    exact ih (Filer.step s op)
      (Filer.file_step_bounded hc1 h op (hops op (List.mem_cons_self _ _))
        (hbody op (List.mem_cons_self _ _)))
      (fun o ho => hops o (List.mem_cons_of_mem _ ho))
      (fun o ho => hbody o (List.mem_cons_of_mem _ ho))

/-- C17 as stated fails: the buffer can hold one line more than the capacity.
With capacity 1 and three accepted writes of one line each the second write
flushes and resets the counter, and after the third the buffer holds two
terminated lines, on the system-log sink ("WARN: b" and "WARN: c") and on the
file sink (the body "b" of the second line and the whole third line); with
capacity 0 the buffer holds one line after every accepted write. -/
theorem buffer_exceeds_capacity :
    (Syslog.run (Syslog.new LogLevel.INFO "Log".toList 1)
        [Syslog.Op.write LogLevel.WARN "a\n".toList, Syslog.Op.write LogLevel.WARN "b\n".toList,
         Syslog.Op.write LogLevel.WARN "c\n".toList]).os = "WARN: b\nWARN: c\n".toList ∧
    lineCount (Syslog.run (Syslog.new LogLevel.INFO "Log".toList 1)
        [Syslog.Op.write LogLevel.WARN "a\n".toList, Syslog.Op.write LogLevel.WARN "b\n".toList,
         Syslog.Op.write LogLevel.WARN "c\n".toList]).os = 2 ∧
    (Filer.run (Filer.new LogLevel.INFO "f".toList 1 true)
        [Filer.Op.write LogLevel.WARN "t".toList "a\n".toList,
         Filer.Op.write LogLevel.WARN "t".toList "b\n".toList,
         Filer.Op.write LogLevel.WARN "t".toList "c\n".toList]).os = "b\nt WARN: c\n".toList ∧
    lineCount (Filer.run (Filer.new LogLevel.INFO "f".toList 1 true)
        [Filer.Op.write LogLevel.WARN "t".toList "a\n".toList,
         Filer.Op.write LogLevel.WARN "t".toList "b\n".toList,
         Filer.Op.write LogLevel.WARN "t".toList "c\n".toList]).os = 2 ∧
    lineCount (Syslog.run (Syslog.new LogLevel.INFO "Log".toList 0)
        [Syslog.Op.write LogLevel.WARN "a\n".toList]).os = 1 := by
  decide

/-- C17, amended. The capacity bounds the staged lines up to one: on either
sink freshly constructed with capacity `c`, `0 <= c < INT_MAX`, after every
sequence of `Writer` statements whose bodies are single newline-terminated
lines (and explicit flushes), the buffer holds at most `c + 1` terminated
lines, and at most one more than the line counter says: the sink flushes
before a line `c + 2` is staged. -/
theorem staged_lines_bound (c : Int) (hc0 : 0 ≤ c) (hc1 : c < 2 ^ 31 - 1) (T : LogLevel)
    (p name : List Char) (granted : Bool) (opsF : List Filer.Op) (opsS : List Syslog.Op)
    (hF : ∀ op ∈ opsF, op.isWriteOrFlush = true) (hFb : ∀ op ∈ opsF, op.bodyIsLine)
    (hS : ∀ op ∈ opsS, op.isWriteOrFlush = true) (hSb : ∀ op ∈ opsS, op.bodyIsTerminated) :
    ((lineCount (Filer.run (Filer.new T p c granted) opsF).os : Int) ≤ c + 1 ∧
      (lineCount (Filer.run (Filer.new T p c granted) opsF).os : Int) ≤
        (Filer.run (Filer.new T p c granted) opsF)._loglines + 1) ∧
    ((lineCount (Syslog.run (Syslog.new T name c) opsS).os : Int) ≤ c + 1 ∧
      (lineCount (Syslog.run (Syslog.new T name c) opsS).os : Int) ≤
        (Syslog.run (Syslog.new T name c) opsS)._loglines + 1) := by
  have hf0 : Filer.Bounded T c (Filer.new T p c granted) := by
    refine ⟨rfl, rfl, le_refl _, hc0, ?_⟩
    simp [Filer.new, lineCount]
  have hs0 : Syslog.Bounded T c (Syslog.new T name c) := by
    refine ⟨rfl, rfl, le_refl _, hc0, ?_⟩
    simp [Syslog.new, lineCount]
  obtain ⟨_, _, _, f4, f5⟩ := Filer.file_run_bounded hc1 opsF _ hf0 hF hFb
  obtain ⟨_, _, _, s4, s5⟩ := Syslog.sys_run_bounded hc1 opsS _ hs0 hS hSb
  exact ⟨⟨by omega, f5⟩, ⟨by omega, s5⟩⟩

/-- C17, an instance: capacity 1 and three accepted writes on either sink. -/
theorem staged_lines_bound_witness :
    (lineCount (Filer.run (Filer.new LogLevel.INFO "f".toList 1 true)
        [Filer.Op.write LogLevel.WARN "t".toList "a\n".toList,
         Filer.Op.write LogLevel.WARN "t".toList "b\n".toList,
         Filer.Op.write LogLevel.WARN "t".toList "c\n".toList]).os : Int) ≤ 1 + 1 ∧
    (lineCount (Syslog.run (Syslog.new LogLevel.INFO "Log".toList 1)
        [Syslog.Op.write LogLevel.WARN "a\n".toList, Syslog.Op.write LogLevel.WARN "b\n".toList,
         Syslog.Op.write LogLevel.WARN "c\n".toList]).os : Int) ≤ 1 + 1 := by
  have h := staged_lines_bound 1 (by decide) (by decide) LogLevel.INFO "f".toList
    "Log".toList true
    [Filer.Op.write LogLevel.WARN "t".toList "a\n".toList,
     Filer.Op.write LogLevel.WARN "t".toList "b\n".toList,
     Filer.Op.write LogLevel.WARN "t".toList "c\n".toList]
    [Syslog.Op.write LogLevel.WARN "a\n".toList, Syslog.Op.write LogLevel.WARN "b\n".toList,
     Syslog.Op.write LogLevel.WARN "c\n".toList]
    (by
      intro op hop
      simp only [List.mem_cons, List.mem_singleton, List.not_mem_nil, or_false] at hop
      rcases hop with rfl | rfl | rfl <;> rfl)
    (by
      intro op hop
      simp only [List.mem_cons, List.mem_singleton, List.not_mem_nil, or_false] at hop
      rcases hop with rfl | rfl | rfl
      · exact ⟨by decide, "a".toList, by decide, by decide⟩
      · exact ⟨by decide, "b".toList, by decide, by decide⟩
      · exact ⟨by decide, "c".toList, by decide, by decide⟩)
    (by
      intro op hop
      simp only [List.mem_cons, List.mem_singleton, List.not_mem_nil, or_false] at hop
      rcases hop with rfl | rfl | rfl <;> rfl)
    (by
      intro op hop
      simp only [List.mem_cons, List.mem_singleton, List.not_mem_nil, or_false] at hop
      rcases hop with rfl | rfl | rfl
      · exact ⟨"a".toList, by decide, by decide⟩
      · exact ⟨"b".toList, by decide, by decide⟩
      · exact ⟨"c".toList, by decide, by decide⟩)
  exact ⟨h.1.1, h.2.1⟩

/-- C19. The automatic flush of the file sink comes after the header is
staged.  For a file sink whose stream is open on `p` without error and whose
counter equals its capacity `c`, `0 <= c < INT_MAX`, an accepted call
`Writer(l)` at the rendered time `ts` hands the file the buffer followed by
time, blank, level, colon, blank, leaves the buffer empty and the counter at
zero and returns the real buffer, so that the body inserted next is all the
buffer holds.  For a system-log sink in the same condition the flush comes
first: the old buffer is flushed and the buffer afterwards is level, colon,
blank. -/
theorem autoflush_after_header (f : Filer) (y : Syslog) (l : LogLevel) (ts p body : List Char)
    (hopen : f._logfile = ⟨true, false, p⟩)
    (hf0 : 0 ≤ f._bufferlines) (hf1 : f._bufferlines < 2 ^ 31 - 1)
    (hfc : f._loglines = f._bufferlines) (hfl : f._level ≤ l)
    (hy0 : 0 ≤ y._bufferlines) (hy1 : y._bufferlines < 2 ^ 31 - 1)
    (hyc : y._loglines = y._bufferlines) (hyl : y._level ≤ l) :
    ((Filer.Writer f l ts).2 = Target.os ∧
      (Filer.Writer f l ts).1.disk =
        f.disk ++ [(p, f.os ++ (ts ++ " ".toList ++ l.render ++ ": ".toList))] ∧
      (Filer.Writer f l ts).1.fileText p =
        f.fileText p ++ f.os ++ ts ++ " ".toList ++ l.render ++ ": ".toList ∧
      (Filer.Writer f l ts).1.os = [] ∧ (Filer.Writer f l ts).1._loglines = 0 ∧
      (Filer.step f (Filer.Op.write l ts body)).os = body) ∧
    ((Syslog.Writer y l).2 = Target.os ∧
      (Syslog.Writer y l).1.sent = y.sent ++ Syslog.Write_records y.os ∧
      (Syslog.Writer y l).1.os = l.render ++ ": ".toList ∧
      (Syslog.Writer y l).1._loglines = 0 ∧
      (Syslog.step y (Syslog.Op.write l body)).os = l.render ++ ": ".toList ++ body) := by
  constructor
  · obtain ⟨os, nope, lvl, lf, ll, bl, disk⟩ := f
    simp only at hopen hf0 hf1 hfc hfl
    subst hopen hfc
    have hw : wrap32 (ll + 1) = ll + 1 := wrap32_succ hf0 (le_refl _) hf1
    refine ⟨?_, ?_, ?_, ?_, ?_, ?_⟩ <;>
      simp [Filer.step, Filer.Writer, Filer.Write, Filer.put, Filer.fileText, ofstream.insert,
        Disk.text_append_single, hfl, hw]
  · obtain ⟨os, nope, lvl, ll, bl, sent, nm, idt⟩ := y
    simp only at hy0 hy1 hyc hyl
    subst hyc
    have hw : wrap32 (ll + 1) = ll + 1 := wrap32_succ hy0 (le_refl _) hy1
    refine ⟨?_, ?_, ?_, ?_, ?_⟩ <;>
      simp [Syslog.step, Syslog.Writer, Syslog.Write, Syslog.put, hyl, hw]

/-- C19, an instance: sinks of capacity 1 that hold one accepted line. -/
theorem autoflush_after_header_witness :
    (Filer.Writer (Filer.run (Filer.new LogLevel.INFO "f".toList 1 true)
        [Filer.Op.write LogLevel.WARN "t".toList "a\n".toList])
        LogLevel.CRITICAL "u".toList).1.disk =
      [("f".toList, "t WARN: a\nu CRITICAL: ".toList)] ∧
    (Syslog.Writer (Syslog.run (Syslog.new LogLevel.INFO "Log".toList 1)
        [Syslog.Op.write LogLevel.WARN "a\n".toList]) LogLevel.CRITICAL).1.os =
      "CRITICAL: ".toList := by
  have h := autoflush_after_header
    (Filer.run (Filer.new LogLevel.INFO "f".toList 1 true)
      [Filer.Op.write LogLevel.WARN "t".toList "a\n".toList])
    (Syslog.run (Syslog.new LogLevel.INFO "Log".toList 1)
      [Syslog.Op.write LogLevel.WARN "a\n".toList])
    LogLevel.CRITICAL "u".toList "f".toList "b\n".toList
    (by decide) (by decide) (by decide) (by decide) (by decide)
    (by decide) (by decide) (by decide) (by decide)
  refine ⟨?_, ?_⟩
  · rw [h.1.2.1]; decide
  · rw [h.2.2.2.1]; decide

/-! ## The splitting loop of `Syslog::Write`, exactly -/

/-- The loop on a buffer of non-empty terminated lines followed by a rest at
which the loop condition fails emits the lines. -/
theorem Syslog.Write_loop_leading (ls : List (List Char)) :
    ∀ (t : List Char) (fuel : Nat) (len : Int),
      (∀ l ∈ ls, l ≠ [] ∧ '\n' ∉ l) → ¬ toInt (find t '\n') > 0 →
      (linesBuffer ls t).length < 2 ^ 31 → ls.length < fuel →
      (∀ l ls1, ls = l :: ls1 →
        0 ≤ len ∧ len < 2 ^ 31 ∧ ((linesBuffer ls1 t).length : Int) ≤ len) →
      Syslog.Write_loop fuel (linesBuffer ls t) len = some (ls.map c_str) := by
  induction ls with
  | nil =>
    intro t fuel len _ ht _ hfuel _
    obtain ⟨f, rfl⟩ : ∃ f, fuel = f + 1 := ⟨fuel - 1, by simp at hfuel; omega⟩
    rw [linesBuffer_nil, Syslog.Write_loop]
    simp [ht]
  | cons l ls ih =>
    intro t fuel len hls ht hsize hfuel hlen
    obtain ⟨f, rfl⟩ : ∃ f, fuel = f + 1 := ⟨fuel - 1, by simp at hfuel; omega⟩
    obtain ⟨h0, h1, h2⟩ := hlen l ls rfl
    obtain ⟨hne, hnl⟩ := hls l (List.mem_cons_self _ _)
    rw [linesBuffer_cons] at hsize ⊢
    rw [Syslog.Write_loop_cons f l _ len hne hnl hsize h0 h1 h2]
    have hsize2 : (linesBuffer ls t).length < 2 ^ 31 := by
      simp only [List.length_append, List.length_cons] at hsize
      omega
    rw [ih t f _ (fun x hx => hls x (List.mem_cons_of_mem _ hx)) ht hsize2
      (by simp at hfuel; omega) ?_]
    · rfl
    · intro l2 ls2 e
      subst e
      obtain ⟨hne2, hnl2⟩ := hls l2 (List.mem_cons_of_mem _ (List.mem_cons_self _ _))
      rw [linesBuffer_cons] at h2 hsize2 ⊢
      rw [find_append_cons hnl2]
      simp only [List.length_append, List.length_cons] at h2 hsize2
      rw [toInt_of_lt (by omega)]
      rw [wrap32_of_range (by omega) (by omega)]
      refine ⟨by omega, by omega, by omega⟩

/-- Every text is a run of non-empty terminated lines, which are its leading
lines, followed by a rest that has no newline or starts with one. -/
theorem leadingLinesAux_spec (cs : List Char) :
    ∀ (acc : List Char), '\n' ∉ acc →
      ∃ (ls : List (List Char)) (t : List Char),
        acc.reverse ++ cs = linesBuffer ls t ∧ (∀ l ∈ ls, l ≠ [] ∧ '\n' ∉ l) ∧
        ('\n' ∉ t ∨ ∃ r, t = '\n' :: r) ∧ leadingLinesAux cs acc = ls := by
  induction cs with
  | nil =>
    intro acc hacc
    exact ⟨[], acc.reverse, by simp [linesBuffer], by simp, Or.inl (by simpa using hacc), rfl⟩
  | cons c cs ih =>
    intro acc hacc
    by_cases hc : c = '\n'
    · subst hc
      by_cases ha : acc = []
      · subst ha
        exact ⟨[], '\n' :: cs, by simp [linesBuffer], by simp, Or.inr ⟨cs, rfl⟩,
          by simp [leadingLinesAux]⟩
      · obtain ⟨ls, t, h1, h2, h3, h4⟩ := ih [] (by simp)
        refine ⟨acc.reverse :: ls, t, ?_, ?_, h3, ?_⟩
        · rw [linesBuffer_cons, ← h1]
          simp
        · intro l hl
          rcases List.mem_cons.mp hl with rfl | hl
          · exact ⟨by simpa using ha, by simpa using hacc⟩
          · exact h2 l hl
        · simp [leadingLinesAux, ha, h4]
    · obtain ⟨ls, t, h1, h2, h3, h4⟩ := ih (c :: acc) (by
        intro h
        rcases List.mem_cons.mp h with h | h
        · exact hc h.symm
        · exact hacc h)
      refine ⟨ls, t, ?_, h2, h3, ?_⟩
      · rw [← h1]
        simp
      · simp [leadingLinesAux, hc, h4]

theorem leadingLines_spec (s : List Char) :
    ∃ (ls : List (List Char)) (t : List Char),
      s = linesBuffer ls t ∧ (∀ l ∈ ls, l ≠ [] ∧ '\n' ∉ l) ∧
      ('\n' ∉ t ∨ ∃ r, t = '\n' :: r) ∧ leadingLines s = ls := by
  simpa [leadingLines] using leadingLinesAux_spec s [] (by simp)

theorem find_cons_self (c : Char) (r : List Char) : find (c :: r) c = 0 := by
  simp [find]

theorem mem_linesBuffer_of_mem {ls : List (List Char)} {t l : List Char} {x : Char}
    (hl : l ∈ ls) (hx : x ∈ l) : x ∈ linesBuffer ls t := by
  unfold linesBuffer
  rw [List.mem_append, List.mem_flatMap]
  exact Or.inl ⟨l, hl, List.mem_append_left _ hx⟩

/-- The messages of a flush on a buffer free of NUL characters and shorter
than `2 ^ 31` are its leading lines. -/
theorem Syslog.Write_records_eq_leadingLines (s : List Char) (hnul : '\x00' ∉ s)
    (hlen : s.length < 2 ^ 31) : Syslog.Write_records s = leadingLines s := by
  obtain ⟨ls, t, h1, h2, h3, h4⟩ := leadingLines_spec s
  rw [h4]
  have hstop : ¬ toInt (find t '\n') > 0 := by
    rcases h3 with h | ⟨r, rfl⟩
    · rw [find_of_not_mem h, toInt_npos]
      omega
    · rw [find_cons_self]
      decide
  have hmap : ls.map c_str = ls := by
    conv_rhs => rw [← List.map_id ls]
    apply List.map_congr_left
    intro l hl
    have : '\x00' ∉ l := fun hx => hnul (h1 ▸ mem_linesBuffer_of_mem hl hx)
    simpa using c_str_of_not_mem this
  have hsz : (linesBuffer ls t).length < 2 ^ 31 := h1 ▸ hlen
  have hloop : Syslog.Write_loop (s.length + 1) s (toInt s.length) = some ls := by
    rw [toInt_of_lt hlen]
    conv_lhs => rw [h1]
    rw [Syslog.Write_loop_leading ls t _ _ h2 hstop hsz
      (by have := length_le_linesBuffer ls t; omega) ?_, hmap]
    intro l ls1 e
    subst e
    rw [linesBuffer_cons] at hsz ⊢
    simp only [List.length_append, List.length_cons] at hsz ⊢
    refine ⟨by omega, by omega, by omega⟩
  unfold Syslog.Write_records
  split
  · rw [hloop]; rfl
  · rename_i hc
    cases ls with
    | nil => rfl
    | cons l ls1 =>
      exfalso
      apply hc
      obtain ⟨hne, _⟩ := h2 l (List.mem_cons_self _ _)
      have hl0 : '\x00' ∉ l :=
        fun hx => hnul (h1 ▸ mem_linesBuffer_of_mem (List.mem_cons_self _ _) hx)
      rw [h1, linesBuffer_cons]
      cases l with
      | nil => exact absurd rfl hne
      | cons c cs =>
        simp only [c_str0, List.cons_append, List.headD_cons]
        intro e
        exact hl0 (e ▸ List.mem_cons_self _ _)

/-- One pass of the loop under `Syslog.LenCovers`: the new text is what
follows the first newline, the condition holds again, and the message is the
C string of the text before that newline. -/
theorem Syslog.Write_body_exact (lines : List Char) (len : Int)
    (hcov : Syslog.LenCovers lines len) (hgt : toInt (find lines '\n') > 0) :
    (Syslog.Write_body lines (toInt (find lines '\n')) len).2.1 =
        lines.drop (find lines '\n' + 1) ∧
      Syslog.LenCovers (Syslog.Write_body lines (toInt (find lines '\n')) len).2.1
        (Syslog.Write_body lines (toInt (find lines '\n')) len).2.2.2 ∧
      (Syslog.Write_body lines (toInt (find lines '\n')) len).1 =
        c_str (lines.take (find lines '\n')) := by
  obtain ⟨hsize, hlen⟩ := hcov
  obtain ⟨h0, h1, h2⟩ := hlen hgt
  have hne : find lines '\n' ≠ npos := by
    intro e
    rw [e, toInt_npos] at hgt
    omega
  have hk := find_lt_of_ne_npos hne
  have hcount : toInt (find lines '\n') = (find lines '\n' : Int) := toInt_of_lt (by omega)
  have hw : wrap32 ((find lines '\n' : Int) + 1) = (find lines '\n' : Int) + 1 := by
    apply wrap32_of_range <;> omega
  have hpos : toSizeT ((find lines '\n' : Int) + 1) = find lines '\n' + 1 := by
    rw [toSizeT_of_nonneg (by omega) (by omega)]
    omega
  have hn : (lines.drop (find lines '\n' + 1)).length ≤ toSizeT len := by
    rw [toSizeT_of_nonneg h0 (by omega), List.length_drop]
    omega
  have hlines1 : (Syslog.Write_body lines (toInt (find lines '\n')) len).2.1 =
      lines.drop (find lines '\n' + 1) := by
    simp only [Syslog.Write_body, substr, hcount, hw, hpos]
    exact List.take_of_length_le hn
  refine ⟨hlines1, ?_, ?_⟩
  · have hlen1 : (Syslog.Write_body lines (toInt (find lines '\n')) len).2.2.2 =
        wrap32 (len - toInt (find (lines.drop (find lines '\n' + 1)) '\n')) := by
      rw [← hlines1]
      rfl
    rw [hlines1, hlen1]
    have hd : (lines.drop (find lines '\n' + 1)).length = lines.length - (find lines '\n' + 1) :=
      List.length_drop _ _
    refine ⟨by omega, ?_⟩
    intro hgt1
    have hne1 : find (lines.drop (find lines '\n' + 1)) '\n' ≠ npos := by
      intro e
      rw [e, toInt_npos] at hgt1
      omega
    have hk1 := find_lt_of_ne_npos hne1
    rw [toInt_of_lt (by omega), wrap32_of_range (by omega) (by omega)]
    refine ⟨by omega, by omega, by omega⟩
  · simp [Syslog.Write_body, substr]

/-- Under `Syslog.LenCovers` every value of `lines` is what follows the first
newline of the value before. -/
theorem Syslog.Write_remaining_chain (fuel : Nat) :
    ∀ (lines : List Char) (len : Int), Syslog.LenCovers lines len →
      List.Chain afterFirstNewline lines (Syslog.Write_remaining fuel lines len) := by
  induction fuel with
  | zero => intro lines len _; exact List.Chain.nil
  | succ f ih =>
    intro lines len hcov
    rw [Syslog.Write_remaining]
    by_cases hgt : toInt (find lines '\n') > 0
    · simp only [hgt, if_true]
      obtain ⟨e1, e2, _⟩ := Syslog.Write_body_exact lines len hcov hgt
      exact List.Chain.cons e1 (ih _ _ e2)
    · simp only [hgt, if_false]
      exact List.Chain.nil

/-- The loop records as many values of `lines` as it passes messages. -/
theorem Syslog.Write_remaining_length (fuel : Nat) :
    ∀ (lines : List Char) (len : Int) (recs : List (List Char)),
      Syslog.Write_loop fuel lines len = some recs →
      (Syslog.Write_remaining fuel lines len).length = recs.length := by
  induction fuel with
  | zero => intro lines len recs h; simp [Syslog.Write_loop] at h
  | succ f ih =>
    intro lines len recs h
    rw [Syslog.Write_loop] at h
    rw [Syslog.Write_remaining]
    by_cases hgt : toInt (find lines '\n') > 0
    · simp only [hgt, if_true, Option.map_eq_some'] at h ⊢
      obtain ⟨r, hr, rfl⟩ := h
      simp [ih _ _ r hr]
    · simp only [hgt, if_false, Option.some.injEq] at h ⊢
      subst h
      rfl

theorem Syslog.lenCovers_start (s : List Char) (hlen : s.length < 2 ^ 31) :
    Syslog.LenCovers s (toInt s.length) := by
  refine ⟨hlen, fun _ => ?_⟩
  rw [toInt_of_lt hlen]
  refine ⟨by omega, by omega, by omega⟩

/-- C18. Exact behaviour of the splitting loop.  For every buffer content `s`
without NUL character and shorter than `2 ^ 31`, `Syslog::Write` passes to the
system log, in order, exactly the leading lines of `s`: `s` is these lines,
each non-empty, free of newlines and followed by a newline, and then a rest
that has no newline or starts with one, which is dropped, the buffer being
emptied; an empty `s` yields nothing.  The `len` bookkeeping never truncates:
the text left after each pass is what followed the first newline of the text
before, and there is one such pass for each message. -/
theorem Syslog.Write_exact (y : Syslog) (hnul : '\x00' ∉ y.os) (hlen : y.os.length < 2 ^ 31) :
    ((Syslog.Write y).sent = y.sent ++ leadingLines y.os ∧ (Syslog.Write y).os = []) ∧
    (∃ t, y.os = linesBuffer (leadingLines y.os) t ∧
      (∀ l ∈ leadingLines y.os, l ≠ [] ∧ '\n' ∉ l) ∧ ('\n' ∉ t ∨ ∃ r, t = '\n' :: r)) ∧
    (y.os = [] → (Syslog.Write y).sent = y.sent) ∧
    List.Chain afterFirstNewline y.os
      (Syslog.Write_remaining (y.os.length + 1) y.os (toInt y.os.length)) ∧
    (Syslog.Write_remaining (y.os.length + 1) y.os (toInt y.os.length)).length =
      (leadingLines y.os).length := by
  have hrec := Syslog.Write_records_eq_leadingLines y.os hnul hlen
  refine ⟨⟨by simp [Syslog.Write, hrec], rfl⟩, ?_, ?_,
    Syslog.Write_remaining_chain _ _ _ (Syslog.lenCovers_start _ hlen), ?_⟩
  · obtain ⟨ls, t, h1, h2, h3, h4⟩ := leadingLines_spec y.os
    exact ⟨t, by rw [h4]; exact h1, by rw [h4]; exact h2, h3⟩
  · intro he
    simp [Syslog.Write, he, Syslog.Write_records, c_str0]
  · cases hos : y.os with
    | nil => decide
    | cons c cs =>
      have hsome := Syslog.Write_loop_fuel (y.os.length + 1) y.os (toInt y.os.length)
        (Nat.lt_succ_self _)
      obtain ⟨recs, hr⟩ := Option.isSome_iff_exists.mp hsome
      have hc : c_str0 y.os ≠ '\x00' := by
        rw [hos]
        simp only [c_str0, List.headD_cons]
        intro e
        exact hnul (by rw [hos, e]; exact List.mem_cons_self _ _)
      have hrecs : Syslog.Write_records y.os = recs := by
        simp only [Syslog.Write_records, hc, ne_eq, not_false_eq_true, if_true, hr,
          Option.getD_some]
      rw [← hos, Syslog.Write_remaining_length _ _ _ recs hr, ← hrec, hrecs]

/-- C18, the buffer "A" newline newline "B" newline: the message "A" is
passed, the loop stops at the empty line, and the text left after its one
pass is what follows the first newline. -/
theorem Syslog.Write_exact_witness :
    (Syslog.Write (Syslog.put (Syslog.new LogLevel.INFO "Log".toList 5) Target.os
        "A\n\nB\n".toList)).sent = ["A".toList] ∧
    Syslog.Write_remaining 7 "A\n\nB\n".toList 6 = ["\nB\n".toList] := by
  have h := Syslog.Write_exact
    (Syslog.put (Syslog.new LogLevel.INFO "Log".toList 5) Target.os "A\n\nB\n".toList)
    (by decide) (by decide)
  refine ⟨?_, by decide⟩
  rw [h.1.1]
  decide

/-! ## Termination of the splitting loop -/

/-- A pass of the loop needs a newline at a position greater than 0. -/
theorem Syslog.loop_test_position (lines : List Char) (h : toInt (find lines '\n') > 0) :
    0 < find lines '\n' ∧ find lines '\n' < lines.length := by
  have hne : find lines '\n' ≠ npos := by
    intro e
    rw [e, toInt_npos] at h
    omega
  have h1 := find_lt_of_ne_npos hne
  refine ⟨?_, h1⟩
  rcases Nat.eq_zero_or_pos (find lines '\n') with h0 | h0
  · rw [h0] at h
    exact absurd h (by decide)
  · exact h0

/-- Each pass of the loop shortens `lines` by two characters at least. -/
theorem Syslog.Write_body_shorter_by_two (lines : List Char) (len : Int)
    (h : toInt (find lines '\n') > 0) :
    (Syslog.Write_body lines (toInt (find lines '\n')) len).2.1.length + 2 ≤ lines.length := by
  obtain ⟨h0, h1⟩ := Syslog.loop_test_position lines h
  have hpos : 2 ≤ toSizeT (wrap32 (toInt (find lines '\n') + 1)) := by
    have hb : toInt (find lines '\n') < 2 ^ 31 := by
      unfold toInt wrap32
      omega
    unfold toSizeT wrap32
    omega
  simp only [Syslog.Write_body, substr, List.length_take, List.length_drop]
  omega

/-- The text left by a pass is a piece of the text before. -/
theorem Syslog.Write_body_infix (lines : List Char) (count len : Int) :
    (Syslog.Write_body lines count len).2.1 <:+: lines := by
  simp only [Syslog.Write_body, substr]
  exact (List.take_prefix _ _).isInfix.trans (List.drop_suffix _ _).isInfix

/-- The loop passes at most one message for every two characters. -/
theorem Syslog.Write_loop_count (fuel : Nat) :
    ∀ (lines : List Char) (len : Int) (recs : List (List Char)),
      Syslog.Write_loop fuel lines len = some recs → 2 * recs.length ≤ lines.length := by
  induction fuel with
  | zero => intro lines len recs h; simp [Syslog.Write_loop] at h
  | succ f ih =>
    intro lines len recs h
    rw [Syslog.Write_loop] at h
    by_cases hgt : toInt (find lines '\n') > 0
    · simp only [hgt, if_true, Option.map_eq_some'] at h
      obtain ⟨r, hr, rfl⟩ := h
      have h1 := ih _ _ r hr
      have h2 := Syslog.Write_body_shorter_by_two lines len hgt
      simp only [List.length_cons]
      omega
    · simp only [hgt, if_false, Option.some.injEq] at h
      subst h
      simp

/-- The loop ends by its own condition within one test more than half the
number of characters. -/
theorem Syslog.Write_loop_fuel_half (fuel : Nat) :
    ∀ (lines : List Char) (len : Int), lines.length < 2 * fuel →
      (Syslog.Write_loop fuel lines len).isSome = true := by
  induction fuel with
  | zero => intro lines len h; omega
  | succ f ih =>
    intro lines len h
    rw [Syslog.Write_loop]
    by_cases hc : toInt (find lines '\n') > 0
    · simp only [hc, if_true, Option.isSome_map']
      apply ih
      have := Syslog.Write_body_shorter_by_two lines len hc
      omega
    · simp [hc]

/-- The number of messages of a flush is at most half the length of the
buffer. -/
theorem Syslog.Write_records_count (s : List Char) :
    (Syslog.Write_records s).length ≤ s.length / 2 := by
  unfold Syslog.Write_records
  split
  · have hsome := Syslog.Write_loop_fuel (s.length + 1) s (toInt s.length) (Nat.lt_succ_self _)
    obtain ⟨recs, hr⟩ := Option.isSome_iff_exists.mp hsome
    have := Syslog.Write_loop_count _ _ _ recs hr
    rw [hr]
    simp only [Option.getD_some]
    omega
  · simp

/-- C20. The splitting loop terminates for every buffer content.  A pass
needs a newline at a position greater than 0, and the text it leaves is a
piece of the text before, at least two characters shorter (its suffix after
the first newline when `len` covers it, as it does for buffers shorter than
`2 ^ 31`); a missing newline, `npos` read as a negative `int`, ends the loop;
so for every values of `lines` and `len` the loop ends by its own condition
within `|lines| / 2 + 1` tests, and `Syslog::Write` makes at most
`floor(|s| / 2)` calls of `syslog` on a buffer `s`. -/
theorem Syslog.Write_terminates (lines : List Char) (len : Int) (fuel : Nat) (y : Syslog) :
    (toInt (find lines '\n') > 0 →
      0 < find lines '\n' ∧ find lines '\n' < lines.length ∧
      (Syslog.Write_body lines (toInt (find lines '\n')) len).2.1.length + 2 ≤ lines.length ∧
      (Syslog.Write_body lines (toInt (find lines '\n')) len).2.1 <:+: lines ∧
      (Syslog.LenCovers lines len →
        (Syslog.Write_body lines (toInt (find lines '\n')) len).2.1 <:+ lines)) ∧
    (find lines '\n' = npos → toInt (find lines '\n') < 0 ∧
      Syslog.Write_loop (fuel + 1) lines len = some []) ∧
    (∃ recs, Syslog.Write_loop (lines.length / 2 + 1) lines len = some recs ∧
      recs.length ≤ lines.length / 2) ∧
    ((Syslog.Write y).sent.length ≤ y.sent.length + y.os.length / 2 ∧
      (Syslog.Write_records y.os).length ≤ y.os.length / 2) := by
  refine ⟨?_, ?_, ?_, ?_⟩
  · intro h
    obtain ⟨h0, h1⟩ := Syslog.loop_test_position lines h
    refine ⟨h0, h1, Syslog.Write_body_shorter_by_two lines len h,
      Syslog.Write_body_infix lines _ len, ?_⟩
    intro hcov
    rw [(Syslog.Write_body_exact lines len hcov h).1]
    exact List.drop_suffix _ _
  · intro h
    refine ⟨by rw [h, toInt_npos]; decide, ?_⟩
    rw [Syslog.Write_loop]
    simp [h, toInt_npos]
  · have hsome := Syslog.Write_loop_fuel_half (lines.length / 2 + 1) lines len (by omega)
    obtain ⟨recs, hr⟩ := Option.isSome_iff_exists.mp hsome
    have := Syslog.Write_loop_count _ _ _ recs hr
    exact ⟨recs, hr, by omega⟩
  · have := Syslog.Write_records_count y.os
    refine ⟨?_, this⟩
    simp only [Syslog.Write, List.length_append]
    omega

/-- C20, the buffer "A" newline "B" newline "C": five characters, two
messages, and a first pass that leaves "B" newline "C". -/
theorem Syslog.Write_terminates_witness :
    (Syslog.Write_body "A\nB\nC".toList (toInt (find "A\nB\nC".toList '\n')) 5).2.1.length + 2
        ≤ "A\nB\nC".toList.length ∧
    Syslog.Write_loop 1 "C".toList 6 = some [] ∧
    (∃ recs, Syslog.Write_loop 3 "A\nB\nC".toList 5 = some recs ∧ recs.length ≤ 2) := by
  have h := Syslog.Write_terminates "A\nB\nC".toList 5 0
    (Syslog.new LogLevel.INFO "Log".toList 5)
  have h2 := Syslog.Write_terminates "C".toList 6 0 (Syslog.new LogLevel.INFO "Log".toList 5)
  exact ⟨(h.1 (by decide)).2.2.1, (h2.2.1 (by decide)).2, h.2.2.1⟩

end DfcLog
